import Mathlib

/-!
hsdaoh: metadata record layout and nibble extraction.

A shallow embedding of `include/hsdaoh_raw.h` and of the message codes of
`include/hsdaoh.h`:

* the packed records `stream_info_t` and `metadata_t` as field lists, laid
  out without padding (`__attribute__((packed, aligned(1)))`);
* `hsdaoh_extract_metadata`, the loop that gathers the record from the
  upper four bits of the last byte of every video line, as a state machine
  over explicit state, with 32-bit unsigned index arithmetic.

The encoder and the magic check of the codec are not in the two headers; they
are modelled from the specification and marked as such.

Machine integers are natural numbers reduced modulo `2^32` (or `2^8`)
wherever the C code reduces them.
-/

namespace Hsdaoh

/-! ## Constants of the headers -/

/-- The constant `HSDAOH_MAGIC`, defined as `0xda7acab1`. -/
def HSDAOH_MAGIC : Nat := 0xda7acab1

/-- The constant `DEFAULT_MAX_STREAMS`, defined as `8`. -/
def DEFAULT_MAX_STREAMS : Nat := 8

/-- The constant `FLAG_STREAM_ID_PRESENT`, defined as `(1 << 0)`. -/
def FLAG_STREAM_ID_PRESENT : Nat := 1 <<< 0

/-- The constant `FLAG_FORMAT_ID_PRESENT`, defined as `(1 << 1)`. -/
def FLAG_FORMAT_ID_PRESENT : Nat := 1 <<< 1

/-- Number of values of an `unsigned int` (32 bits). -/
def UINT_MOD : Nat := 2 ^ 32

/-- The message codes of `enum hsdaoh_messages` in `hsdaoh.h`. -/
inductive hsdaoh_messages
  | HSDAOH_SUCCESS
  | HSDAOH_ERROR_KERNEL_UVC_DRIVER_DETACH_FAILED
  | HSDAOH_ERROR_KERNEL_HID_DRIVER_DETACH_FAILED
  | HSDAOH_ERROR_KERNEL_DRIVER_REATTACH_FAILED
  | HSDAOH_ERROR_USB_CLAIM_INTERFACE_HID_FAILED
  | HSDAOH_ERROR_USB_CLAIM_INTERFACE_1_FAILED
  | HSDAOH_ERROR_USB_CLEARING_ENDPOINT_HALT_FAILED
  | HSDAOH_ERROR_USB_OPEN_FAILED
  | HSDAOH_ERROR_USB_ACCESS
  | HSDAOH_ERROR_INCORRECT_FRAME_FORMAT
  | HSDAOH_ERROR_OTHER
  | HSDAOH_WARNING_MISSED_FRAME
  | HSDAOH_WARNING_INVALID_PAYLOAD_LENGTH
  | HSDAOH_WARNING_IDLE_COUNTER_ERROR
  | HSDAOH_INFO_KERNEL_REATTACH_DRIVER
  | HSDAOH_INFO_SYNCRONIZED_HDMI_INPUT_STREAM
  | HSDAOH_INFO_START_STREAMING
  | HSDAOH_INFO_STOP_STREAMING
  deriving DecidableEq, Repr

/-- The integer value of every enumerator of `enum hsdaoh_messages`. -/
def hsdaoh_messages.code : hsdaoh_messages → Int
  | .HSDAOH_SUCCESS => 0
  | .HSDAOH_ERROR_KERNEL_UVC_DRIVER_DETACH_FAILED => -1
  | .HSDAOH_ERROR_KERNEL_HID_DRIVER_DETACH_FAILED => -2
  | .HSDAOH_ERROR_KERNEL_DRIVER_REATTACH_FAILED => -3
  | .HSDAOH_ERROR_USB_CLAIM_INTERFACE_HID_FAILED => -4
  | .HSDAOH_ERROR_USB_CLAIM_INTERFACE_1_FAILED => -5
  | .HSDAOH_ERROR_USB_CLEARING_ENDPOINT_HALT_FAILED => -6
  | .HSDAOH_ERROR_USB_OPEN_FAILED => -7
  | .HSDAOH_ERROR_USB_ACCESS => -8
  | .HSDAOH_ERROR_INCORRECT_FRAME_FORMAT => -9
  | .HSDAOH_ERROR_OTHER => -99
  | .HSDAOH_WARNING_MISSED_FRAME => 1
  | .HSDAOH_WARNING_INVALID_PAYLOAD_LENGTH => 2
  | .HSDAOH_WARNING_IDLE_COUNTER_ERROR => 3
  | .HSDAOH_INFO_KERNEL_REATTACH_DRIVER => 100
  | .HSDAOH_INFO_SYNCRONIZED_HDMI_INPUT_STREAM => 101
  | .HSDAOH_INFO_START_STREAMING => 102
  | .HSDAOH_INFO_STOP_STREAMING => 103

/-! ## Packed record layout -/

/-- The scalar types of the members of the two records. -/
inductive CScalar
  | uint8_t
  | uint16_t
  | uint32_t
  | uint64_t
  | char
  deriving DecidableEq, Repr

/-- Size in bytes of a scalar type. -/
def CScalar.bytes : CScalar → Nat
  | .uint8_t => 1
  | .uint16_t => 2
  | .uint32_t => 4
  | .uint64_t => 8
  | .char => 1

/-- One member of a C struct: its name, the size in bytes of one element of
its type, and the number of elements (1 for a scalar member). -/
structure Field where
  name : String
  elemSize : Nat
  count : Nat
  deriving DecidableEq, Repr

/-- Bytes taken by a member. -/
def Field.size (f : Field) : Nat := f.elemSize * f.count

/-- Size of a packed struct: with `packed, aligned(1)` the members follow
one another without padding, so the size is the sum of the member sizes. -/
def packedSize : List Field → Nat
  | [] => 0
  | f :: fs => f.size + packedSize fs

/-- Layout of a packed struct starting at byte offset `base`: every member
with the offset of its first byte, in declaration order. -/
def packedLayout (base : Nat) : List Field → List (Field × Nat)
  | [] => []
  | f :: fs => (f, base) :: packedLayout (base + f.size) fs

/-- Byte offset of the member called `name` in a packed struct. -/
def offsetOf (fs : List Field) (name : String) : Option Nat :=
  ((packedLayout 0 fs).find? (fun p => p.1.name == name)).map Prod.snd

/-- Size in bytes of the member called `name` in a packed struct. -/
def sizeOfField (fs : List Field) (name : String) : Option Nat :=
  (fs.find? (fun f => f.name == name)).map Field.size

/-- Byte offset of element `k` of the array member called `name`. -/
def offsetOfElem (fs : List Field) (name : String) (k : Nat) : Option Nat :=
  ((packedLayout 0 fs).find? (fun p => p.1.name == name)).map
    (fun p => p.2 + p.1.elemSize * k)

/-- Number of members of the struct whose byte range contains byte `b`. -/
def fieldsCovering (fs : List Field) (b : Nat) : Nat :=
  ((packedLayout 0 fs).filter (fun p => decide (p.2 ≤ b ∧ b < p.2 + p.1.size))).length

/-- The members of `stream_info_t`:
`uint64_t data_cnt; uint32_t srate; uint32_t reserved1; char reserved2[16];`. -/
def stream_info_t : List Field :=
  [ ⟨"data_cnt", CScalar.uint64_t.bytes, 1⟩,
    ⟨"srate", CScalar.uint32_t.bytes, 1⟩,
    ⟨"reserved1", CScalar.uint32_t.bytes, 1⟩,
    ⟨"reserved2", CScalar.char.bytes, 16⟩ ]

/-- The members of `metadata_t`:
`uint32_t magic; uint16_t framecounter; uint8_t reserved1; uint8_t crc_config;
uint16_t version; uint32_t flags; uint32_t reserved2[8]; uint16_t stream0_format;
uint16_t max_streamid; stream_info_t stream_info[DEFAULT_MAX_STREAMS];`. -/
def metadata_t : List Field :=
  [ ⟨"magic", CScalar.uint32_t.bytes, 1⟩,
    ⟨"framecounter", CScalar.uint16_t.bytes, 1⟩,
    ⟨"reserved1", CScalar.uint8_t.bytes, 1⟩,
    ⟨"crc_config", CScalar.uint8_t.bytes, 1⟩,
    ⟨"version", CScalar.uint16_t.bytes, 1⟩,
    ⟨"flags", CScalar.uint32_t.bytes, 1⟩,
    ⟨"reserved2", CScalar.uint32_t.bytes, 8⟩,
    ⟨"stream0_format", CScalar.uint16_t.bytes, 1⟩,
    ⟨"max_streamid", CScalar.uint16_t.bytes, 1⟩,
    ⟨"stream_info", packedSize stream_info_t, DEFAULT_MAX_STREAMS⟩ ]

/-- The value of `sizeof(metadata_t)`. -/
def sizeof_metadata_t : Nat := packedSize metadata_t

/-! ## Memory -/

/-- A raw capture buffer (`uint8_t *data`): its length in bytes and its
contents. Reading at or past `size` is outside the object. -/
structure RawBuffer where
  size : Nat
  byte : Nat → Fin 256

/-- The read `data[idx]`: the byte at `idx`, or nothing when `idx` is out of range. -/
def RawBuffer.read (data : RawBuffer) (idx : Nat) : Option Nat :=
  if idx < data.size then some (data.byte idx).val else none

/-- Little-endian value of the `n` bytes of `r` starting at offset `off`
(a multi-byte member of the packed record, as captured). -/
def readLE (r : List Nat) (off : Nat) : Nat → Nat
  | 0 => 0
  | n + 1 => r.getD off 0 + 256 * readLE r (off + 1) n

/-- A member of the record read as a little-endian unsigned integer. -/
def fieldLE (r : List Nat) (name : String) : Nat :=
  readLE r ((offsetOf metadata_t name).getD 0) ((sizeOfField metadata_t name).getD 0)

/-- The member `magic` of a record. -/
def metadata_magic (r : List Nat) : Nat := fieldLE r "magic"

/-- The member `flags` of a record. -/
def metadata_flags (r : List Nat) : Nat := fieldLE r "flags"

/-! ## `hsdaoh_extract_metadata` -/

/-- Ways in which a run of the loop can leave defined behaviour, and the
exhaustion of the iteration budget of the model. -/
inductive Fault
  | readOutOfBounds (idx : Nat)
  | writeOutOfBounds (j : Nat)
  | outOfFuel
  deriving DecidableEq, Repr

/-- The index expression `((i+1)*width*2) - 1` in `unsigned int` arithmetic. -/
def idxLow (width i : Nat) : Nat :=
  ((((i + 1) % UINT_MOD) * (width % UINT_MOD) % UINT_MOD * 2) % UINT_MOD + UINT_MOD - 1) % UINT_MOD

/-- The index expression `((i+2)*width*2) - 1` in `unsigned int` arithmetic. -/
def idxHigh (width i : Nat) : Nat :=
  ((((i + 2) % UINT_MOD) * (width % UINT_MOD) % UINT_MOD * 2) % UINT_MOD + UINT_MOD - 1) % UINT_MOD

/-- The value stored by `(x >> 4) | (y & 0xf0)` into a `uint8_t`. -/
def combine (x y : Nat) : Nat := ((x >>> 4) ||| (y &&& 0xf0)) % 256

/-- State of the loop: the counters `i` and `j`, the bytes of `*metadata`,
and (ghost) the buffer indices read and record indices written so far. -/
structure ExtractState where
  i : Nat
  j : Nat
  meta : List Nat
  reads : List Nat
  writes : List Nat
  deriving DecidableEq, Repr

/-- One execution of the loop body
`meta[j++] = (data[((i+1)*width*2) - 1] >> 4) | (data[((i+2)*width*2) - 1] & 0xf0);`
followed by `i += 2`. -/
def extract_body (data : RawBuffer) (width : Nat) (s : ExtractState) :
    Except Fault ExtractState :=
  match data.read (idxLow width s.i) with
  | none => .error (.readOutOfBounds (idxLow width s.i))
  | some x =>
    match data.read (idxHigh width s.i) with
    | none => .error (.readOutOfBounds (idxHigh width s.i))
    | some y =>
      if s.j < s.meta.length then
        .ok { i := (s.i + 2) % UINT_MOD,
              j := s.j + 1,
              meta := s.meta.set s.j (combine x y),
              reads := s.reads ++ [idxLow width s.i, idxHigh width s.i],
              writes := s.writes ++ [s.j] }
      else .error (.writeOutOfBounds s.j)

/-- The loop `for (...; i < sizeof(metadata_t)*2; i += 2) body`, with an
iteration budget. -/
def extract_loop (data : RawBuffer) (width : Nat) : Nat → ExtractState → Except Fault ExtractState
  | 0, s => if s.i < sizeof_metadata_t * 2 then .error .outOfFuel else .ok s
  | fuel + 1, s =>
    if s.i < sizeof_metadata_t * 2 then
      match extract_body data width s with
      | .ok s' => extract_loop data width fuel s'
      | .error e => .error e
    else .ok s

/-- State at loop entry: `int j = 0`, `unsigned i = 0`, `meta` pointing to
the caller's record. -/
def extract_init (metadata : List Nat) : ExtractState :=
  { i := 0, j := 0, meta := metadata, reads := [], writes := [] }

/-- Budget of the run: the loop counter takes at most `2^32` values. -/
def extract_fuel : Nat := UINT_MOD

/-- The call `hsdaoh_extract_metadata(data, metadata, width)`: the final state of the
loop, whose `meta` is the record left in `*metadata`. -/
def hsdaoh_extract_metadata (data : RawBuffer) (metadata : List Nat) (width : Nat) :
    Except Fault ExtractState :=
  extract_loop data width extract_fuel (extract_init metadata)

/-- The record left in `*metadata` by a run, when the run completed. -/
def recordOf : Except Fault ExtractState → Option (List Nat)
  | .ok s => some s.meta
  | .error _ => none

/-- Buffer indices read by a run, in order, when the run completed. -/
def readsOf : Except Fault ExtractState → Option (List Nat)
  | .ok s => some s.reads
  | .error _ => none

/-- Index of the last byte of line `k` of a frame whose lines are `width`
16-bit words long: line `k` occupies bytes `[2*width*k, 2*width*(k+1))`. -/
def lastByteOfLine (width k : Nat) : Nat := 2 * width * (k + 1) - 1

/-- Upper four bits of the byte at `idx`. -/
def upperNibble (data : RawBuffer) (idx : Nat) : Nat := (data.byte idx).val / 16

/-! ## Closed forms used by the proofs -/

/-- Nibble number `k` of a record: the low nibble of byte `k / 2` for even `k`,
the high nibble for odd `k`. -/
def recordNibble (r : List Nat) (k : Nat) : Nat :=
  if k % 2 = 0 then r.getD (k / 2) 0 % 16 else r.getD (k / 2) 0 / 16 % 16


/-- Record byte `t` as iteration `t` of the loop computes it. -/
def extractedByte (data : RawBuffer) (width t : Nat) : Nat :=
  combine (data.byte (idxLow width (2 * t))).val (data.byte (idxHigh width (2 * t))).val

/-- Buffer indices read by the first `m` iterations, in order. -/
def readTrace (width : Nat) : Nat → List Nat
  | 0 => []
  | m + 1 => readTrace width m ++ [idxLow width (2 * m), idxHigh width (2 * m)]

/-- Closed form of the loop state after `m` iterations. -/
def stateAfter (data : RawBuffer) (width : Nat) (metadata : List Nat) (m : Nat) : ExtractState :=
  { i := 2 * m,
    j := m,
    meta := (List.range m).map (extractedByte data width) ++ metadata.drop m,
    reads := readTrace width m,
    writes := List.range m }

/-- Both reads of iteration `t` are inside the buffer. -/
def readsInRange (data : RawBuffer) (width t : Nat) : Prop :=
  idxLow width (2 * t) < data.size ∧ idxHigh width (2 * t) < data.size

/-! ## The encoder -/

/-- Modelled from the spec: the encoder, which is not part of the two headers.
It is the inverse of the nibble interleaving of sections 4.1 and 6: the low
nibble of record byte `j` goes into the upper four bits of the last byte of
line `2j`, the high nibble into the upper four bits of the last byte of line
`2j+1`; the lower four bits of those bytes and all other bytes are those of
the frame `base`. -/
def hsdaoh_encode_metadata (base : RawBuffer) (width : Nat) (r : List Nat) : RawBuffer :=
  { size := base.size,
    byte := fun idx =>
      if (idx + 1) % (2 * width) = 0 ∧ 1 ≤ (idx + 1) / (2 * width) ∧
          (idx + 1) / (2 * width) ≤ 2 * r.length then
        let k := (idx + 1) / (2 * width) - 1
        let nib := if k % 2 = 0 then r.getD (k / 2) 0 % 16 else r.getD (k / 2) 0 / 16 % 16
        ⟨(16 * nib + (base.byte idx).val % 16) % 256, Nat.mod_lt _ (by decide)⟩
      else base.byte idx }

/-! ## The magic check -/

/-- Outcome of the metadata codec: a trusted record, or a reported message. -/
inductive CodecResult
  | record (r : List Nat)
  | failure (msg : hsdaoh_messages)
  deriving DecidableEq, Repr

/-- Modelled from the spec: the magic check of the metadata codec (section 4.1),
which is not part of the two headers; they only hold `HSDAOH_MAGIC`, the message
codes and the helper `hsdaoh_extract_metadata`. The record is extracted and its
magic field is checked first: a mismatch returns the synchronization failure
`IncorrectFrameFormat`, a match returns the record. The failure is a returned
value; a `Fault` can only come from the extraction itself. -/
def metadata_codec (data : RawBuffer) (metadata : List Nat) (width : Nat) :
    Except Fault CodecResult :=
  match hsdaoh_extract_metadata data metadata width with
  | .error e => .error e
  | .ok s =>
    if metadata_magic s.meta ≠ HSDAOH_MAGIC then
      .ok (.failure .HSDAOH_ERROR_INCORRECT_FRAME_FORMAT)
    else .ok (.record s.meta)

/-! ## Concrete inputs -/

/-- A buffer of `n` bytes, all zero. -/
def zeroBuffer (n : Nat) : RawBuffer := ⟨n, fun _ => 0⟩

/-- A buffer of `n` bytes, zero except at the listed indices. -/
def sparseBuffer (n : Nat) (pokes : List (Nat × Fin 256)) : RawBuffer :=
  ⟨n, fun idx => (pokes.lookup idx).getD 0⟩

/-- A record of 306 zero bytes. -/
def zeroRecord : List Nat := List.replicate 306 0

/-- A record with the magic `0xda7acab1` in bytes 0..3, `last` in byte 305
and zero elsewhere. -/
def magicRecord (last : Nat) : List Nat :=
  [0xb1, 0xca, 0x7a, 0xda] ++ List.replicate 301 0 ++ [last]

/-- A frame of 612 lines of width 2 (2448 bytes): two payload bytes (indices 0
and 4), the magic in the upper nibbles of the last bytes of lines 0..7, both flag
bits in the last byte of line 20 (index 83) and a non-zero last byte of line 611. -/
def sampleFrame : RawBuffer :=
  sparseBuffer 2448 [(0, 0xff), (4, 0x55), (3, 0x1f), (7, 0xb2), (11, 0xa0), (15, 0xc4),
    (19, 0xa1), (23, 0x70), (27, 0xa9), (31, 0xd0), (83, 0x35), (2447, 0xe7)]

/-- The frame `sampleFrame` without its two payload bytes. -/
def sampleFrameNoPayload : RawBuffer :=
  sparseBuffer 2448 [(3, 0x1f), (7, 0xb2), (11, 0xa0), (15, 0xc4),
    (19, 0xa1), (23, 0x70), (27, 0xa9), (31, 0xd0), (83, 0x35), (2447, 0xe7)]

/-- Frame of `1224 * 3508961` zero bytes (612 lines of width 3508961). -/
def wideZeroFrame : RawBuffer := zeroBuffer (1224 * 3508961)

/-- The frame `wideZeroFrame` with the payload byte at index 967 (inside line 0)
set to `0xf0`. -/
def widePayloadFrame : RawBuffer := sparseBuffer (1224 * 3508961) [(967, 0xf0)]

/-- Frame of `1224 * 268435457` bytes (612 lines of width `2^28 + 1`), zero except
for the last bytes of lines 0..7, whose upper nibbles spell the magic. -/
def magicFrameWide : RawBuffer :=
  sparseBuffer (1224 * 268435457)
    [(536870913, 0x10), (1073741827, 0xb0), (1610612741, 0xa0), (2147483655, 0xc0),
     (2684354569, 0xa0), (3221225483, 0x70), (3758096397, 0xa0), (4294967311, 0xd0)]

/-- Frame of `1224 * 102261127` bytes, zero except for the last byte of line 20
(index `42 * 102261127 - 1`), which has bits 4 and 5 set. -/
def flagFrameWide : RawBuffer :=
  sparseBuffer (1224 * 102261127) [(4294967333, 0x30)]

/-! ## Arithmetic of one iteration -/

theorem sizeof_metadata_t_eq : sizeof_metadata_t = 306 := by decide

theorem UINT_MOD_eq : UINT_MOD = 4294967296 := by norm_num [UINT_MOD]

set_option maxRecDepth 100000 in
theorem and_f0_eq : ∀ y : Fin 256, y.val &&& 0xf0 = 16 * (y.val / 16) := by decide

theorem or_nibbles_eq : ∀ a b : Fin 16, a.val ||| 16 * b.val = a.val + 16 * b.val := by decide

theorem or_eq (x y : Fin 256) :
    (x.val >>> 4) ||| (y.val &&& 0xf0) = x.val / 16 + 16 * (y.val / 16) := by
  have hx : x.val / 16 < 16 := by omega
  have hy : y.val / 16 < 16 := by omega
  have h := or_nibbles_eq ⟨x.val / 16, hx⟩ ⟨y.val / 16, hy⟩
  simp only at h
  rw [Nat.shiftRight_eq_div_pow, and_f0_eq y]
  norm_num
  rw [h]

theorem combine_eq (x y : Fin 256) :
    combine x.val y.val = x.val / 16 + 16 * (y.val / 16) := by
  unfold combine
  rw [or_eq]
  omega

/-! ## The loop -/

theorem stateAfter_zero (data : RawBuffer) (w : Nat) (m0 : List Nat) :
    stateAfter data w m0 0 = extract_init m0 := by
  simp [stateAfter, extract_init, readTrace]

theorem extract_body_stateAfter (data : RawBuffer) (w : Nat) (m0 : List Nat) (m : Nat)
    (hlen : m0.length = 306) (hm : m < 306) (hr : readsInRange data w m) :
    extract_body data w (stateAfter data w m0 m) = .ok (stateAfter data w m0 (m + 1)) := by
  obtain ⟨h1, h2⟩ := hr
  have hi : (2 * m + 2) % UINT_MOD = 2 * (m + 1) := by
    rw [UINT_MOD_eq]; omega
  obtain ⟨x0, hdrop⟩ : ∃ x0, m0.drop m = x0 :: m0.drop (m + 1) :=
    ⟨_, List.drop_eq_getElem_cons (by omega)⟩
  simp only [extract_body, stateAfter, RawBuffer.read, h1, h2, if_true, List.length_append,
    List.length_map, List.length_range, List.length_drop, hlen, hi]
  rw [if_pos (by omega)]
  have hmeta : ((List.range m).map (extractedByte data w) ++ m0.drop m).set m
        (combine (data.byte (idxLow w (2 * m))).val (data.byte (idxHigh w (2 * m))).val)
      = (List.range (m + 1)).map (extractedByte data w) ++ m0.drop (m + 1) := by
    rw [List.set_append, if_neg (by simp), List.length_map, List.length_range, Nat.sub_self,
      hdrop, List.set_cons_zero, List.range_succ, List.map_append, List.append_assoc]
    rfl
  rw [hmeta, List.range_succ]
  rfl

theorem extract_loop_stateAfter (data : RawBuffer) (w : Nat) (m0 : List Nat)
    (hlen : m0.length = 306) :
    ∀ (k m fuel : Nat), m + k = 306 → k ≤ fuel →
      (∀ t, m ≤ t → t < 306 → readsInRange data w t) →
      extract_loop data w fuel (stateAfter data w m0 m) = .ok (stateAfter data w m0 306) := by
  intro k
  induction k with
  | zero =>
    intro m fuel hm _ _
    have : m = 306 := by omega
    subst this
    cases fuel <;> simp [extract_loop, stateAfter, sizeof_metadata_t_eq]
  | succ k ih =>
    intro m fuel hm hf hr
    obtain ⟨fuel, rfl⟩ : ∃ f, fuel = f + 1 := ⟨fuel - 1, by omega⟩
    have hlt : (stateAfter data w m0 m).i < sizeof_metadata_t * 2 := by
      simp only [stateAfter, sizeof_metadata_t_eq]; omega
    rw [extract_loop, if_pos hlt,
      extract_body_stateAfter data w m0 m hlen (by omega) (hr m (le_refl _) (by omega))]
    exact ih (m + 1) fuel (by omega) (by omega) (fun t h1 h2 => hr t (by omega) h2)

theorem extract_loop_fault (data : RawBuffer) (w : Nat) (m0 : List Nat)
    (hlen : m0.length = 306) :
    ∀ (k m fuel : Nat), m + k = 306 → k ≤ fuel →
      (∃ t, m ≤ t ∧ t < 306 ∧ ¬ readsInRange data w t) →
      ∃ idx, data.size ≤ idx ∧
        extract_loop data w fuel (stateAfter data w m0 m) = .error (.readOutOfBounds idx) := by
  intro k
  induction k with
  | zero =>
    intro m fuel hm _ ⟨t, h1, h2, _⟩
    omega
  | succ k ih =>
    intro m fuel hm hf ⟨t, ht1, ht2, hbad⟩
    obtain ⟨fuel, rfl⟩ : ∃ f, fuel = f + 1 := ⟨fuel - 1, by omega⟩
    have hlt : (stateAfter data w m0 m).i < sizeof_metadata_t * 2 := by
      simp only [stateAfter, sizeof_metadata_t_eq]; omega
    by_cases hr : readsInRange data w m
    · rw [extract_loop, if_pos hlt, extract_body_stateAfter data w m0 m hlen (by omega) hr]
      have hne : t ≠ m := fun h => hbad (h ▸ hr)
      exact ih (m + 1) fuel (by omega) (by omega) ⟨t, by omega, ht2, hbad⟩
    · rw [extract_loop, if_pos hlt]
      unfold readsInRange at hr
      by_cases h1 : idxLow w (2 * m) < data.size
      · have h2 : ¬ idxHigh w (2 * m) < data.size := fun h => hr ⟨h1, h⟩
        exact ⟨idxHigh w (2 * m), by omega, by
          simp [extract_body, stateAfter, RawBuffer.read, h1, h2]⟩
      · exact ⟨idxLow w (2 * m), by omega, by
          simp [extract_body, stateAfter, RawBuffer.read, h1]⟩

theorem extract_fuel_ge : 306 ≤ extract_fuel := by
  rw [extract_fuel, UINT_MOD_eq]; norm_num

/-- Completed run: closed form of the final state. -/
theorem hsdaoh_extract_metadata_ok (data : RawBuffer) (w : Nat) (m0 : List Nat)
    (hlen : m0.length = 306) (hr : ∀ t, t < 306 → readsInRange data w t) :
    hsdaoh_extract_metadata data m0 w = .ok (stateAfter data w m0 306) := by
  unfold hsdaoh_extract_metadata
  rw [← stateAfter_zero data w m0]
  exact extract_loop_stateAfter data w m0 hlen 306 0 extract_fuel (by omega) extract_fuel_ge
    (fun t _ h => hr t h)

theorem hsdaoh_extract_metadata_fault (data : RawBuffer) (w : Nat) (m0 : List Nat)
    (hlen : m0.length = 306) (hr : ∃ t, t < 306 ∧ ¬ readsInRange data w t) :
    ∃ idx, data.size ≤ idx ∧
      hsdaoh_extract_metadata data m0 w = .error (.readOutOfBounds idx) := by
  unfold hsdaoh_extract_metadata
  rw [← stateAfter_zero data w m0]
  obtain ⟨t, h1, h2⟩ := hr
  exact extract_loop_fault data w m0 hlen 306 0 extract_fuel (by omega) extract_fuel_ge
    ⟨t, by omega, h1, h2⟩

/-! ## Index arithmetic and the record in closed form -/

/-- The 32-bit index expression `n*width*2 - 1` does not wrap as long as
`2*width*n` is at most `2^32`. -/
theorem idx_nowrap (w n : Nat) (hw : 1 ≤ w) (hn : 1 ≤ n) (h : 2 * w * n ≤ 4294967296) :
    (((n % UINT_MOD) * (w % UINT_MOD) % UINT_MOD * 2) % UINT_MOD + UINT_MOD - 1) % UINT_MOD
      = 2 * w * n - 1 := by
  obtain ⟨p, hp⟩ : ∃ p, n * w = p := ⟨_, rfl⟩
  have h2 : 2 * w * n = 2 * p := by rw [← hp]; ring
  have hnp : n ≤ p := by rw [← hp]; exact Nat.le_mul_of_pos_right n hw
  have hwp : w ≤ p := by rw [← hp]; exact Nat.le_mul_of_pos_left w hn
  rw [UINT_MOD_eq, Nat.mod_eq_of_lt (show n < 4294967296 by omega),
    Nat.mod_eq_of_lt (show w < 4294967296 by omega), hp, h2]
  omega

theorem two_w_mul_le (w n a b : Nat) (hw : w ≤ a) (hn : n ≤ b) : 2 * w * n ≤ 2 * a * b :=
  Nat.mul_le_mul (Nat.mul_le_mul_left 2 hw) hn

theorem idxLow_eq (w t : Nat) (hw : 1 ≤ w) (h : 2 * w * (2 * t + 1) ≤ 4294967296) :
    idxLow w (2 * t) = lastByteOfLine w (2 * t) :=
  idx_nowrap w (2 * t + 1) hw (by omega) h

theorem idxHigh_eq (w t : Nat) (hw : 1 ≤ w) (h : 2 * w * (2 * t + 2) ≤ 4294967296) :
    idxHigh w (2 * t) = lastByteOfLine w (2 * t + 1) :=
  idx_nowrap w (2 * t + 2) hw (by omega) h

theorem idxLow_eq_of_le (w t : Nat) (hw : 1 ≤ w) (hw2 : w ≤ 3508960) (ht : t < 306) :
    idxLow w (2 * t) = lastByteOfLine w (2 * t) :=
  idxLow_eq w t hw (le_trans (two_w_mul_le w (2 * t + 1) 3508960 612 hw2 (by omega)) (by norm_num))

theorem idxHigh_eq_of_le (w t : Nat) (hw : 1 ≤ w) (hw2 : w ≤ 3508960) (ht : t < 306) :
    idxHigh w (2 * t) = lastByteOfLine w (2 * t + 1) :=
  idxHigh_eq w t hw (le_trans (two_w_mul_le w (2 * t + 2) 3508960 612 hw2 (by omega)) (by norm_num))

theorem idxLow_lt (w i : Nat) : idxLow w i < 4294967296 := by
  unfold idxLow; rw [UINT_MOD_eq]; exact Nat.mod_lt _ (by norm_num)

theorem idxHigh_lt (w i : Nat) : idxHigh w i < 4294967296 := by
  unfold idxHigh; rw [UINT_MOD_eq]; exact Nat.mod_lt _ (by norm_num)

/-- Bounds of the last byte of line `k`, for `k < 612`. -/
theorem lastByteOfLine_bounds (w k : Nat) (hw : 1 ≤ w) (hk : k < 612) :
    2 * w - 1 ≤ lastByteOfLine w k ∧ lastByteOfLine w k ≤ 1224 * w - 1 ∧
      lastByteOfLine w k + 1 = 2 * w * (k + 1) := by
  unfold lastByteOfLine
  have h1 : 2 * w * 1 ≤ 2 * w * (k + 1) := Nat.mul_le_mul_left _ (by omega)
  have h2 : 2 * w * (k + 1) ≤ 2 * w * 612 := Nat.mul_le_mul_left _ (by omega)
  omega

theorem lastByteOfLine_inj (w k k2 : Nat) (hw : 1 ≤ w)
    (h : lastByteOfLine w k = lastByteOfLine w k2) : k = k2 := by
  unfold lastByteOfLine at h
  have h1 : 2 * w * 1 ≤ 2 * w * (k + 1) := Nat.mul_le_mul_left _ (by omega)
  have h2 : 2 * w * 1 ≤ 2 * w * (k2 + 1) := Nat.mul_le_mul_left _ (by omega)
  have h3 : 2 * w * (k + 1) = 2 * w * (k2 + 1) := by omega
  have := Nat.eq_of_mul_eq_mul_left (by omega : 0 < 2 * w) h3
  omega

/-- A buffer of at least `1224*width` bytes contains every index the loop
reads, whatever the width (a wrapped index is below `2^32`). -/
theorem readsInRange_of_size (data : RawBuffer) (w t : Nat) (hw : 1 ≤ w)
    (hsz : 1224 * w ≤ data.size) (ht : t < 306) : readsInRange data w t := by
  unfold readsInRange
  by_cases hw2 : w ≤ 3508960
  · rw [idxLow_eq_of_le w t hw hw2 ht, idxHigh_eq_of_le w t hw hw2 ht]
    have h1 := lastByteOfLine_bounds w (2 * t) hw (by omega)
    have h2 := lastByteOfLine_bounds w (2 * t + 1) hw (by omega)
    omega
  · have h1 := idxLow_lt w (2 * t)
    have h2 := idxHigh_lt w (2 * t)
    omega

theorem readTrace_length (w m : Nat) : (readTrace w m).length = 2 * m := by
  induction m with
  | zero => rfl
  | succ m ih => simp [readTrace, ih]; omega

/-- Without wrap-around the reads are the last bytes of lines `0, 1, 2, ...`. -/
theorem readTrace_eq (w : Nat) (hw : 1 ≤ w) (hw2 : w ≤ 3508960) :
    ∀ m, m ≤ 306 → readTrace w m = (List.range (2 * m)).map (lastByteOfLine w) := by
  intro m
  induction m with
  | zero => intro _; rfl
  | succ m ih =>
    intro hm
    rw [readTrace, ih (by omega), idxLow_eq_of_le w m hw hw2 (by omega),
      idxHigh_eq_of_le w m hw hw2 (by omega),
      show 2 * (m + 1) = (2 * m + 1) + 1 by ring, List.range_succ, List.range_succ]
    simp

theorem stateAfter_meta (data : RawBuffer) (w : Nat) (m0 : List Nat) (hlen : m0.length = 306) :
    (stateAfter data w m0 306).meta = (List.range 306).map (extractedByte data w) := by
  simp [stateAfter, List.drop_eq_nil_of_le (le_of_eq hlen)]

/-- A completed run leaves the closed-form record. -/
theorem recordOf_extract (data : RawBuffer) (w : Nat) (m0 : List Nat)
    (hlen : m0.length = 306) (hr : ∀ t, t < 306 → readsInRange data w t) :
    recordOf (hsdaoh_extract_metadata data m0 w)
      = some ((List.range 306).map (extractedByte data w)) := by
  rw [hsdaoh_extract_metadata_ok data w m0 hlen hr, recordOf, stateAfter_meta data w m0 hlen]

theorem getD_map_range (f : Nat → Nat) (n t : Nat) (ht : t < n) :
    ((List.range n).map f).getD t 0 = f t := by
  simp [List.getD, ht]

theorem extractedByte_eq (data : RawBuffer) (w t : Nat) :
    extractedByte data w t
      = upperNibble data (idxLow w (2 * t)) + 16 * upperNibble data (idxHigh w (2 * t)) := by
  unfold extractedByte upperNibble
  exact combine_eq _ _

theorem upperNibble_lt (data : RawBuffer) (idx : Nat) : upperNibble data idx < 16 := by
  unfold upperNibble; omega

theorem stateAfter_reads (data : RawBuffer) (w : Nat) (m0 : List Nat)
    (hw : 1 ≤ w) (hw2 : w ≤ 3508960) :
    (stateAfter data w m0 306).reads = (List.range 612).map (lastByteOfLine w) := by
  simp only [stateAfter]
  exact readTrace_eq w hw hw2 306 (le_refl _)

theorem stateAfter_writes (data : RawBuffer) (w : Nat) (m0 : List Nat) (m : Nat) :
    (stateAfter data w m0 m).writes = List.range m := rfl

theorem ok_unique (data : RawBuffer) (w : Nat) (m0 : List Nat) (s : ExtractState)
    (hlen : m0.length = 306) (hr : ∀ t, t < 306 → readsInRange data w t)
    (h : hsdaoh_extract_metadata data m0 w = .ok s) : s = stateAfter data w m0 306 := by
  rw [hsdaoh_extract_metadata_ok data w m0 hlen hr] at h
  exact (Except.ok.inj h).symm

theorem ok_iff_readsInRange (data : RawBuffer) (w : Nat) (m0 : List Nat)
    (hlen : m0.length = 306) :
    (∃ s, hsdaoh_extract_metadata data m0 w = .ok s) ↔ ∀ t, t < 306 → readsInRange data w t := by
  constructor
  · rintro ⟨s, hs⟩
    by_contra hcon
    push_neg at hcon
    obtain ⟨idx, _, he⟩ := hsdaoh_extract_metadata_fault data w m0 hlen hcon
    rw [he] at hs
    cases hs
  · intro hr
    exact ⟨_, hsdaoh_extract_metadata_ok data w m0 hlen hr⟩

theorem readsInRange_iff_size (data : RawBuffer) (w : Nat) (hw : 1 ≤ w) (hw2 : w ≤ 3508960) :
    (∀ t, t < 306 → readsInRange data w t) ↔ 1224 * w ≤ data.size := by
  constructor
  · intro h
    have h305 := (h 305 (by norm_num)).2
    rw [idxHigh_eq_of_le w 305 hw hw2 (by norm_num)] at h305
    have hb := lastByteOfLine_bounds w (2 * 305 + 1) hw (by norm_num)
    omega
  · intro hsz t ht
    exact readsInRange_of_size data w t hw hsz ht

theorem idx_zero_width (n : Nat) :
    (((n % UINT_MOD) * (0 % UINT_MOD) % UINT_MOD * 2) % UINT_MOD + UINT_MOD - 1) % UINT_MOD
      = 4294967295 := by
  rw [UINT_MOD_eq]; simp

theorem nodup_lastBytes (w n : Nat) (hw : 1 ≤ w) :
    ((List.range n).map (lastByteOfLine w)).Nodup :=
  List.Nodup.map (fun a b h => lastByteOfLine_inj w a b hw h) (List.nodup_range n)

theorem readsOf_extract (data : RawBuffer) (w : Nat) (m0 : List Nat)
    (hlen : m0.length = 306) (hw : 1 ≤ w) (hw2 : w ≤ 3508960)
    (hr : ∀ t, t < 306 → readsInRange data w t) :
    readsOf (hsdaoh_extract_metadata data m0 w)
      = some ((List.range 612).map (lastByteOfLine w)) := by
  rw [hsdaoh_extract_metadata_ok data w m0 hlen hr, readsOf, stateAfter_reads data w m0 hw hw2]

theorem zeroRecord_length : zeroRecord.length = 306 := by
  simp only [zeroRecord, List.length_replicate]

theorem extractedByte_zeroBuffer (n w t : Nat) : extractedByte (zeroBuffer n) w t = 0 := by
  show combine (0 : Fin 256).val (0 : Fin 256).val = 0
  decide

theorem fault_is_read (data : RawBuffer) (w : Nat) (m0 : List Nat) (e : Fault)
    (hlen : m0.length = 306) (h : hsdaoh_extract_metadata data m0 w = .error e) :
    ∃ idx, e = .readOutOfBounds idx ∧ data.size ≤ idx := by
  by_cases hr : ∀ t, t < 306 → readsInRange data w t
  · rw [hsdaoh_extract_metadata_ok data w m0 hlen hr] at h
    cases h
  · push_neg at hr
    obtain ⟨idx, hidx, he⟩ := hsdaoh_extract_metadata_fault data w m0 hlen hr
    rw [he] at h
    exact ⟨idx, (Except.error.inj h).symm, hidx⟩

theorem extractedByte_congr (d1 d2 : RawBuffer) (w t : Nat)
    (h1 : upperNibble d1 (idxLow w (2 * t)) = upperNibble d2 (idxLow w (2 * t)))
    (h2 : upperNibble d1 (idxHigh w (2 * t)) = upperNibble d2 (idxHigh w (2 * t))) :
    extractedByte d1 w t = extractedByte d2 w t := by
  rw [extractedByte_eq, extractedByte_eq, h1, h2]

theorem map_range_getD_ne (f g : Nat → Nat) (n t : Nat) (ht : t < n) (h : f t ≠ g t) :
    (List.range n).map f ≠ (List.range n).map g := by
  intro he
  have := congrArg (fun l => l.getD t 0) he
  simp only [getD_map_range _ _ _ ht] at this
  exact h this

theorem metadata_magic_eq (r : List Nat) :
    metadata_magic r
      = r.getD 0 0 + 256 * r.getD 1 0 + 65536 * r.getD 2 0 + 16777216 * r.getD 3 0 := by
  unfold metadata_magic fieldLE
  rw [show offsetOf metadata_t "magic" = some 0 by decide,
    show sizeOfField metadata_t "magic" = some 4 by decide]
  simp only [Option.getD_some, readLE]
  ring

theorem metadata_flags_eq (r : List Nat) :
    metadata_flags r
      = r.getD 10 0 + 256 * r.getD 11 0 + 65536 * r.getD 12 0 + 16777216 * r.getD 13 0 := by
  unfold metadata_flags fieldLE
  rw [show offsetOf metadata_t "flags" = some 10 by decide,
    show sizeOfField metadata_t "flags" = some 4 by decide]
  simp only [Option.getD_some, readLE]
  ring

theorem land_one_ne_zero (x : Nat) : x &&& 1 ≠ 0 ↔ x % 2 = 1 := by
  rw [Nat.and_one_is_mod]; omega

theorem land_two_ne_zero (x : Nat) : x &&& 2 ≠ 0 ↔ x / 2 % 2 = 1 := by
  have h := Nat.and_two_pow x 1
  rw [pow_one] at h
  rw [h, Nat.testBit_to_div_mod, pow_one]
  by_cases hx : x / 2 % 2 = 1 <;> simp [hx]

theorem testBit_iff (x i : Nat) : x.testBit i = true ↔ x / 2 ^ i % 2 = 1 := by
  rw [Nat.testBit_to_div_mod]; simp

/-- The first `n` record bytes in terms of line nibbles, when lines `0..2n-1` do not wrap. -/
theorem extractedByte_line (data : RawBuffer) (w t : Nat) (hw : 1 ≤ w)
    (h : 2 * w * (2 * t + 2) ≤ 4294967296) :
    extractedByte data w t = upperNibble data (lastByteOfLine w (2 * t)) +
      16 * upperNibble data (lastByteOfLine w (2 * t + 1)) := by
  have h1 : 2 * w * (2 * t + 1) ≤ 2 * w * (2 * t + 2) := Nat.mul_le_mul_left _ (by omega)
  rw [extractedByte_eq, idxLow_eq w t hw (le_trans h1 h), idxHigh_eq w t hw h]

theorem flags_low_bits (a b c d e : Nat) :
    ((a + 16 * b + 256 * c + 65536 * d + 16777216 * e) % 2 = 1 ↔ a % 2 = 1) ∧
    ((a + 16 * b + 256 * c + 65536 * d + 16777216 * e) / 2 % 2 = 1 ↔ a / 2 % 2 = 1) := by
  omega

/-- Record of a completed run and its two flag tests in terms of line 20. -/
theorem flags_tests (data : RawBuffer) (metadata : List Nat) (w : Nat)
    (hw1 : 1 ≤ w) (hw2 : w ≤ 102261126) (hsz : 1224 * w ≤ data.size)
    (hlen : metadata.length = 306) :
    ∃ r, recordOf (hsdaoh_extract_metadata data metadata w) = some r ∧
      (metadata_flags r &&& FLAG_STREAM_ID_PRESENT ≠ 0 ↔
        (data.byte (42 * w - 1)).val.testBit 4 = true) ∧
      (metadata_flags r &&& FLAG_FORMAT_ID_PRESENT ≠ 0 ↔
        (data.byte (42 * w - 1)).val.testBit 5 = true) := by
  have hr : ∀ t, t < 306 → readsInRange data w t :=
    fun t ht => readsInRange_of_size data w t hw1 hsz ht
  refine ⟨_, recordOf_extract data w metadata hlen hr, ?_⟩
  have hF1 : FLAG_STREAM_ID_PRESENT = 1 := by decide
  have hF2 : FLAG_FORMAT_ID_PRESENT = 2 := by decide
  have hidx : idxLow w (2 * 10) = 42 * w - 1 := by
    rw [idxLow_eq w 10 hw1 (by omega), lastByteOfLine]; omega
  rw [hF1, hF2, land_one_ne_zero, land_two_ne_zero, testBit_iff, testBit_iff,
    metadata_flags_eq, getD_map_range _ 306 10 (by norm_num), extractedByte_eq, hidx]
  have hb := (data.byte (42 * w - 1)).isLt
  have hn : upperNibble data (42 * w - 1) = (data.byte (42 * w - 1)).val / 16 := rfl
  have hlt := upperNibble_lt data (42 * w - 1)
  have key := flags_low_bits (upperNibble data (42 * w - 1))
    (upperNibble data (idxHigh w (2 * 10)))
    (((List.range 306).map (extractedByte data w)).getD 11 0)
    (((List.range 306).map (extractedByte data w)).getD 12 0)
    (((List.range 306).map (extractedByte data w)).getD 13 0)
  rw [key.1, key.2, hn]
  constructor
  · norm_num
  · norm_num; omega

theorem encode_size (base : RawBuffer) (w : Nat) (r : List Nat) :
    (hsdaoh_encode_metadata base w r).size = base.size := rfl

theorem encode_upperNibble (base : RawBuffer) (w : Nat) (r : List Nat) (k : Nat)
    (hw : 1 ≤ w) (hk : k < 2 * r.length) :
    upperNibble (hsdaoh_encode_metadata base w r) (lastByteOfLine w k) = recordNibble r k := by
  have hpos : 0 < 2 * w := by omega
  have h1 : lastByteOfLine w k + 1 = 2 * w * (k + 1) := by
    unfold lastByteOfLine
    have : 2 * w * 1 ≤ 2 * w * (k + 1) := Nat.mul_le_mul_left _ (by omega)
    omega
  have hmod : (lastByteOfLine w k + 1) % (2 * w) = 0 := by
    rw [h1]; exact Nat.mul_mod_right _ _
  have hdiv : (lastByteOfLine w k + 1) / (2 * w) = k + 1 := by
    rw [h1]; exact Nat.mul_div_cancel_left _ hpos
  have hb := (base.byte (lastByteOfLine w k)).isLt
  unfold upperNibble hsdaoh_encode_metadata
  simp only [hmod, hdiv, Nat.add_sub_cancel]
  rw [if_pos ⟨trivial, by omega, by omega⟩]
  unfold recordNibble
  simp only []
  split <;> omega

theorem map_getD_range (r : List Nat) (n : Nat) (h : r.length = n) :
    (List.range n).map (fun j => r.getD j 0) = r := by
  subst h
  apply List.ext_getElem
  · simp
  · intro i h1 h2
    simp [List.getD, List.getElem?_eq_getElem h2]

theorem map_range_ne_of_getD (f : Nat → Nat) (r : List Nat) (n t : Nat) (ht : t < n)
    (h : f t ≠ r.getD t 0) : (List.range n).map f ≠ r := by
  intro he
  have := congrArg (fun l => l.getD t 0) he
  simp only [getD_map_range _ _ _ ht] at this
  exact h this

theorem metadata_codec_eq (data : RawBuffer) (w : Nat) (m0 : List Nat)
    (hlen : m0.length = 306) (hr : ∀ t, t < 306 → readsInRange data w t) :
    metadata_codec data m0 w
      = if metadata_magic ((List.range 306).map (extractedByte data w)) ≠ HSDAOH_MAGIC then
          .ok (.failure .HSDAOH_ERROR_INCORRECT_FRAME_FORMAT)
        else .ok (.record ((List.range 306).map (extractedByte data w))) := by
  unfold metadata_codec
  rw [hsdaoh_extract_metadata_ok data w m0 hlen hr]
  simp only [stateAfter_meta data w m0 hlen]

/-- The decoded magic in terms of the nibbles of lines 0..7, without wrap-around. -/
theorem extract_magic_iff (data : RawBuffer) (w : Nat) (hw1 : 1 ≤ w) (hw2 : w ≤ 268435456) :
    metadata_magic ((List.range 306).map (extractedByte data w)) = HSDAOH_MAGIC ↔
      upperNibble data (lastByteOfLine w 0) = 0x1 ∧
      upperNibble data (lastByteOfLine w 1) = 0xB ∧
      upperNibble data (lastByteOfLine w 2) = 0xA ∧
      upperNibble data (lastByteOfLine w 3) = 0xC ∧
      upperNibble data (lastByteOfLine w 4) = 0xA ∧
      upperNibble data (lastByteOfLine w 5) = 0x7 ∧
      upperNibble data (lastByteOfLine w 6) = 0xA ∧
      upperNibble data (lastByteOfLine w 7) = 0xD := by
  rw [metadata_magic_eq, getD_map_range _ 306 0 (by norm_num),
    getD_map_range _ 306 1 (by norm_num), getD_map_range _ 306 2 (by norm_num),
    getD_map_range _ 306 3 (by norm_num),
    extractedByte_line data w 0 hw1 (by omega), extractedByte_line data w 1 hw1 (by omega),
    extractedByte_line data w 2 hw1 (by omega), extractedByte_line data w 3 hw1 (by omega)]
  have l0 := upperNibble_lt data (lastByteOfLine w 0)
  have l1 := upperNibble_lt data (lastByteOfLine w 1)
  have l2 := upperNibble_lt data (lastByteOfLine w 2)
  have l3 := upperNibble_lt data (lastByteOfLine w 3)
  have l4 := upperNibble_lt data (lastByteOfLine w 4)
  have l5 := upperNibble_lt data (lastByteOfLine w 5)
  have l6 := upperNibble_lt data (lastByteOfLine w 6)
  have l7 := upperNibble_lt data (lastByteOfLine w 7)
  simp only [HSDAOH_MAGIC, Nat.mul_zero, Nat.zero_add, Nat.reduceMul, Nat.reduceAdd]
  omega

theorem recordOf_zeroFrame :
    recordOf (hsdaoh_extract_metadata (zeroBuffer 1224) zeroRecord 1) = some zeroRecord := by
  have hr : ∀ t, t < 306 → readsInRange (zeroBuffer 1224) 1 t :=
    fun t ht => readsInRange_of_size (zeroBuffer 1224) 1 t (by decide) (by decide) ht
  have hz : (List.range 306).map (extractedByte (zeroBuffer 1224) 1) = zeroRecord := by
    rw [zeroRecord, List.eq_replicate_iff]
    refine ⟨by rw [List.length_map, List.length_range], ?_⟩
    intro b hb
    rw [List.mem_map] at hb
    obtain ⟨t, _, rfl⟩ := hb
    exact extractedByte_zeroBuffer 1224 1 t
  rw [recordOf_extract (zeroBuffer 1224) 1 zeroRecord zeroRecord_length hr, hz]

/-! ## The claims -/

/-- C1: for every width `w` with `1 ≤ w ≤ 3508960` and every buffer of at least
`1224*w` bytes, `hsdaoh_extract_metadata` completes and leaves a 306-byte record
whose byte `j`, for every `j` in `0..305`, is
`(data[(2j+1)*2w - 1] >> 4) | (data[(2j+2)*2w - 1] & 0xF0)`. These two indices
are the last bytes of lines `2j` and `2j+1` (line `k` occupies bytes
`[2w*k, 2w*(k+1))`), the low nibble of record byte `j` is the upper four bits of
the former and the high nibble the upper four bits of the latter. -/
theorem C1_extract_metadata_byte (data : RawBuffer) (metadata : List Nat) (w : Nat)
    (hw1 : 1 ≤ w) (hw2 : w ≤ 3508960) (hsz : 1224 * w ≤ data.size)
    (hlen : metadata.length = sizeof_metadata_t) :
    ∃ s, hsdaoh_extract_metadata data metadata w = .ok s ∧
      s.meta.length = 306 ∧
      ∀ j, j < 306 →
        s.meta.getD j 0
            = ((data.byte ((2 * j + 1) * (2 * w) - 1)).val >>> 4) |||
              ((data.byte ((2 * j + 2) * (2 * w) - 1)).val &&& 0xF0) ∧
          (2 * j + 1) * (2 * w) - 1 = lastByteOfLine w (2 * j) ∧
          (2 * j + 2) * (2 * w) - 1 = lastByteOfLine w (2 * j + 1) ∧
          s.meta.getD j 0 % 16 = upperNibble data (lastByteOfLine w (2 * j)) ∧
          s.meta.getD j 0 / 16 = upperNibble data (lastByteOfLine w (2 * j + 1)) := by
  rw [sizeof_metadata_t_eq] at hlen
  have hr : ∀ t, t < 306 → readsInRange data w t :=
    fun t ht => readsInRange_of_size data w t hw1 hsz ht
  refine ⟨_, hsdaoh_extract_metadata_ok data w metadata hlen hr, ?_, ?_⟩
  · rw [stateAfter_meta data w metadata hlen]; simp
  · intro j hj
    have e1 : (2 * j + 1) * (2 * w) - 1 = lastByteOfLine w (2 * j) := by
      unfold lastByteOfLine; congr 1; ring
    have e2 : (2 * j + 2) * (2 * w) - 1 = lastByteOfLine w (2 * j + 1) := by
      unfold lastByteOfLine; congr 1; ring
    have hb : (stateAfter data w metadata 306).meta.getD j 0
        = upperNibble data (lastByteOfLine w (2 * j)) +
          16 * upperNibble data (lastByteOfLine w (2 * j + 1)) := by
      rw [stateAfter_meta data w metadata hlen, getD_map_range _ _ _ hj, extractedByte_eq,
        idxLow_eq_of_le w j hw1 hw2 hj, idxHigh_eq_of_le w j hw1 hw2 hj]
    have l1 := upperNibble_lt data (lastByteOfLine w (2 * j))
    have l2 := upperNibble_lt data (lastByteOfLine w (2 * j + 1))
    refine ⟨?_, e1, e2, by omega, by omega⟩
    rw [hb, e1, e2, or_eq]
    rfl


/-- Witness of C1: width 2 and a frame of 2448 bytes. -/
theorem C1_extract_metadata_byte_witness :
    (1 ≤ 2 ∧ 2 ≤ 3508960 ∧ 1224 * 2 ≤ sampleFrame.size ∧ zeroRecord.length = sizeof_metadata_t) ∧
    ∃ s, hsdaoh_extract_metadata sampleFrame zeroRecord 2 = .ok s ∧
      s.meta.length = 306 ∧
      ∀ j, j < 306 →
        s.meta.getD j 0
            = ((sampleFrame.byte ((2 * j + 1) * (2 * 2) - 1)).val >>> 4) |||
              ((sampleFrame.byte ((2 * j + 2) * (2 * 2) - 1)).val &&& 0xF0) ∧
          (2 * j + 1) * (2 * 2) - 1 = lastByteOfLine 2 (2 * j) ∧
          (2 * j + 2) * (2 * 2) - 1 = lastByteOfLine 2 (2 * j + 1) ∧
          s.meta.getD j 0 % 16 = upperNibble sampleFrame (lastByteOfLine 2 (2 * j)) ∧
          s.meta.getD j 0 / 16 = upperNibble sampleFrame (lastByteOfLine 2 (2 * j + 1)) :=
  ⟨⟨by decide, by decide, by simp [sampleFrame, sparseBuffer],
      by simp only [zeroRecord, sizeof_metadata_t_eq, List.length_replicate]⟩,
    C1_extract_metadata_byte sampleFrame zeroRecord 2 (by decide) (by decide)
      (by simp [sampleFrame, sparseBuffer]) (by simp only [zeroRecord, sizeof_metadata_t_eq, List.length_replicate])⟩


/-- C10: bounds of `hsdaoh_extract_metadata`. For `1 ≤ w ≤ 3508960` every buffer
index read lies in `[2w - 1, 1224w - 1]` (both ends are attained), so all reads
are in range, and the run completes, if and only if the buffer has at least
`1224*w` bytes; every record index written lies in `[0, 305]`. For `w = 0` the
index expression is `2^32 - 1` on every iteration, so the run completes only on
a buffer of at least `2^32` bytes. -/
theorem C10_extract_metadata_bounds (data : RawBuffer) (metadata : List Nat) (w : Nat)
    (hlen : metadata.length = sizeof_metadata_t) :
    (1 ≤ w → w ≤ 3508960 →
      (∀ t, t < 306 →
        (2 * w - 1 ≤ idxLow w (2 * t) ∧ idxLow w (2 * t) ≤ 1224 * w - 1) ∧
        (2 * w - 1 ≤ idxHigh w (2 * t) ∧ idxHigh w (2 * t) ≤ 1224 * w - 1)) ∧
      idxLow w 0 = 2 * w - 1 ∧ idxHigh w 610 = 1224 * w - 1 ∧
      ((∀ t, t < 306 → readsInRange data w t) ↔ 1224 * w ≤ data.size) ∧
      ((∃ s, hsdaoh_extract_metadata data metadata w = .ok s) ↔ 1224 * w ≤ data.size) ∧
      (∀ s, hsdaoh_extract_metadata data metadata w = .ok s →
        (∀ x, x ∈ s.reads → 2 * w - 1 ≤ x ∧ x ≤ 1224 * w - 1) ∧
        (∀ j, j ∈ s.writes → 0 ≤ j ∧ j ≤ 305))) ∧
    (w = 0 →
      (∀ i, idxLow w i = 2 ^ 32 - 1 ∧ idxHigh w i = 2 ^ 32 - 1) ∧
      ((∃ s, hsdaoh_extract_metadata data metadata w = .ok s) ↔ 2 ^ 32 ≤ data.size)) := by
  rw [sizeof_metadata_t_eq] at hlen
  constructor
  · intro hw hw2
    have hidx : ∀ t, t < 306 →
        (2 * w - 1 ≤ idxLow w (2 * t) ∧ idxLow w (2 * t) ≤ 1224 * w - 1) ∧
        (2 * w - 1 ≤ idxHigh w (2 * t) ∧ idxHigh w (2 * t) ≤ 1224 * w - 1) := by
      intro t ht
      rw [idxLow_eq_of_le w t hw hw2 ht, idxHigh_eq_of_le w t hw hw2 ht]
      have h1 := lastByteOfLine_bounds w (2 * t) hw (by omega)
      have h2 := lastByteOfLine_bounds w (2 * t + 1) hw (by omega)
      exact ⟨⟨h1.1, h1.2.1⟩, ⟨h2.1, h2.2.1⟩⟩
    refine ⟨hidx, ?_, ?_, readsInRange_iff_size data w hw hw2, ?_, ?_⟩
    · have := idxLow_eq_of_le w 0 hw hw2 (by norm_num)
      rw [Nat.mul_zero] at this
      rw [this, lastByteOfLine]; omega
    · have := idxHigh_eq_of_le w 305 hw hw2 (by norm_num)
      rw [show 2 * 305 = 610 by norm_num] at this
      rw [this, lastByteOfLine]; omega
    · rw [ok_iff_readsInRange data w metadata hlen]
      exact readsInRange_iff_size data w hw hw2
    · intro s hs
      have hr := (ok_iff_readsInRange data w metadata hlen).1 ⟨s, hs⟩
      have hst := ok_unique data w metadata s hlen hr hs
      subst hst
      constructor
      · intro x hx
        rw [stateAfter_reads data w metadata hw hw2, List.mem_map] at hx
        obtain ⟨k, hk, rfl⟩ := hx
        rw [List.mem_range] at hk
        have h1 := lastByteOfLine_bounds w k hw hk
        exact ⟨h1.1, h1.2.1⟩
      · intro j hj
        rw [stateAfter_writes, List.mem_range] at hj
        omega
  · intro hw0
    subst hw0
    have hidx : ∀ i, idxLow 0 i = 2 ^ 32 - 1 ∧ idxHigh 0 i = 2 ^ 32 - 1 := by
      intro i
      exact ⟨idx_zero_width (i + 1), idx_zero_width (i + 2)⟩
    refine ⟨hidx, ?_⟩
    rw [ok_iff_readsInRange data 0 metadata hlen]
    constructor
    · intro h
      have := (h 0 (by norm_num)).1
      rw [(hidx _).1] at this
      omega
    · intro h t _
      unfold readsInRange
      rw [(hidx _).1, (hidx _).2]
      omega

/-- Witness of C10: width 2 (and width 0) on a frame of 2448 bytes. -/
theorem C10_extract_metadata_bounds_witness :
    (zeroRecord.length = sizeof_metadata_t ∧ 1 ≤ 2 ∧ 2 ≤ 3508960 ∧ 0 = 0) ∧
    ((∀ t, t < 306 →
        (2 * 2 - 1 ≤ idxLow 2 (2 * t) ∧ idxLow 2 (2 * t) ≤ 1224 * 2 - 1) ∧
        (2 * 2 - 1 ≤ idxHigh 2 (2 * t) ∧ idxHigh 2 (2 * t) ≤ 1224 * 2 - 1)) ∧
      idxLow 2 0 = 2 * 2 - 1 ∧ idxHigh 2 610 = 1224 * 2 - 1 ∧
      ((∀ t, t < 306 → readsInRange sampleFrame 2 t) ↔ 1224 * 2 ≤ sampleFrame.size) ∧
      ((∃ s, hsdaoh_extract_metadata sampleFrame zeroRecord 2 = .ok s) ↔
        1224 * 2 ≤ sampleFrame.size) ∧
      (∀ s, hsdaoh_extract_metadata sampleFrame zeroRecord 2 = .ok s →
        (∀ x, x ∈ s.reads → 2 * 2 - 1 ≤ x ∧ x ≤ 1224 * 2 - 1) ∧
        (∀ j, j ∈ s.writes → 0 ≤ j ∧ j ≤ 305))) ∧
    ((∀ i, idxLow 0 i = 2 ^ 32 - 1 ∧ idxHigh 0 i = 2 ^ 32 - 1) ∧
      ((∃ s, hsdaoh_extract_metadata sampleFrame zeroRecord 0 = .ok s) ↔
        2 ^ 32 ≤ sampleFrame.size)) :=
  ⟨⟨by simp only [zeroRecord, sizeof_metadata_t_eq, List.length_replicate], by decide,
      by decide, rfl⟩,
    (C10_extract_metadata_bounds sampleFrame zeroRecord 2
      (by simp only [zeroRecord, sizeof_metadata_t_eq, List.length_replicate])).1
      (by decide) (by decide),
    (C10_extract_metadata_bounds sampleFrame zeroRecord 0
      (by simp only [zeroRecord, sizeof_metadata_t_eq, List.length_replicate])).2 rfl⟩

/-- C5: the metadata occupies `2 * sizeof(metadata_t) = 612` positions. For every
width `w` with `1 ≤ w ≤ 3508960` (and a buffer of at least `1224*w` bytes, so that
the run completes) the buffer indices read are, in order, `2w*(k+1) - 1` for
`k = 0, ..., 611`: the set of indices read is exactly that set, the 612 indices
are pairwise distinct, each is read exactly once, read number `k` supplies
exactly nibble `k mod 2` of record byte `k / 2`, and the record indices written
are `0, 1, ..., 305`, each once and in increasing order. -/
theorem C5_extract_metadata_positions (data : RawBuffer) (metadata : List Nat) (w : Nat)
    (hw1 : 1 ≤ w) (hw2 : w ≤ 3508960) (hsz : 1224 * w ≤ data.size)
    (hlen : metadata.length = sizeof_metadata_t) :
    2 * sizeof_metadata_t = 612 ∧
    ∃ s, hsdaoh_extract_metadata data metadata w = .ok s ∧
      s.reads = (List.range (2 * sizeof_metadata_t)).map (fun k => 2 * w * (k + 1) - 1) ∧
      (∀ idx, idx ∈ s.reads ↔ ∃ k, k < 612 ∧ idx = 2 * w * (k + 1) - 1) ∧
      s.reads.length = 612 ∧
      s.reads.Nodup ∧
      (∀ idx, idx ∈ s.reads → s.reads.count idx = 1) ∧
      (∀ k, k < 612 →
        s.meta.getD (k / 2) 0 / 16 ^ (k % 2) % 16 = upperNibble data (s.reads.getD k 0)) ∧
      s.writes = List.range 306 ∧
      s.meta.length = 306 := by
  rw [sizeof_metadata_t_eq] at hlen ⊢
  have hr : ∀ t, t < 306 → readsInRange data w t :=
    fun t ht => readsInRange_of_size data w t hw1 hsz ht
  refine ⟨by norm_num, _, hsdaoh_extract_metadata_ok data w metadata hlen hr, ?_⟩
  have hreads := stateAfter_reads data w metadata hw1 hw2
  have hnd : (stateAfter data w metadata 306).reads.Nodup := by
    rw [hreads]; exact nodup_lastBytes w 612 hw1
  refine ⟨hreads, ?_, ?_, hnd, ?_, ?_, stateAfter_writes data w metadata 306, ?_⟩
  · intro idx
    rw [hreads, List.mem_map]
    constructor
    · rintro ⟨k, hk, rfl⟩
      exact ⟨k, List.mem_range.1 hk, rfl⟩
    · rintro ⟨k, hk, rfl⟩
      exact ⟨k, List.mem_range.2 hk, rfl⟩
  · rw [hreads, List.length_map, List.length_range]
  · intro idx hidx
    exact List.count_eq_one_of_mem hnd hidx
  · intro k hk
    rw [hreads, getD_map_range _ _ _ hk, stateAfter_meta data w metadata hlen,
      getD_map_range _ _ _ (show k / 2 < 306 by omega), extractedByte_eq,
      idxLow_eq_of_le w (k / 2) hw1 hw2 (by omega), idxHigh_eq_of_le w (k / 2) hw1 hw2 (by omega)]
    have l1 := upperNibble_lt data (lastByteOfLine w (2 * (k / 2)))
    have l2 := upperNibble_lt data (lastByteOfLine w (2 * (k / 2) + 1))
    rcases Nat.mod_two_eq_zero_or_one k with h | h
    · have hk2 : lastByteOfLine w k = lastByteOfLine w (2 * (k / 2)) :=
        congrArg (lastByteOfLine w) (by omega)
      rw [h, hk2]
      generalize upperNibble data (lastByteOfLine w (2 * (k / 2))) = a at *
      generalize upperNibble data (lastByteOfLine w (2 * (k / 2) + 1)) = b at *
      norm_num
      omega
    · have hk2 : lastByteOfLine w k = lastByteOfLine w (2 * (k / 2) + 1) :=
        congrArg (lastByteOfLine w) (by omega)
      rw [h, hk2]
      generalize upperNibble data (lastByteOfLine w (2 * (k / 2))) = a at *
      generalize upperNibble data (lastByteOfLine w (2 * (k / 2) + 1)) = b at *
      norm_num
      omega
  · rw [stateAfter_meta data w metadata hlen]; simp

/-- Witness of C5: width 2 and a frame of 2448 bytes. -/
theorem C5_extract_metadata_positions_witness :
    (1 ≤ 2 ∧ 2 ≤ 3508960 ∧ 1224 * 2 ≤ sampleFrame.size ∧
      zeroRecord.length = sizeof_metadata_t) ∧
    2 * sizeof_metadata_t = 612 ∧
    ∃ s, hsdaoh_extract_metadata sampleFrame zeroRecord 2 = .ok s ∧
      s.reads = (List.range (2 * sizeof_metadata_t)).map (fun k => 2 * 2 * (k + 1) - 1) ∧
      (∀ idx, idx ∈ s.reads ↔ ∃ k, k < 612 ∧ idx = 2 * 2 * (k + 1) - 1) ∧
      s.reads.length = 612 ∧
      s.reads.Nodup ∧
      (∀ idx, idx ∈ s.reads → s.reads.count idx = 1) ∧
      (∀ k, k < 612 →
        s.meta.getD (k / 2) 0 / 16 ^ (k % 2) % 16
          = upperNibble sampleFrame (s.reads.getD k 0)) ∧
      s.writes = List.range 306 ∧
      s.meta.length = 306 :=
  ⟨⟨by decide, by decide, by simp [sampleFrame, sparseBuffer],
      by simp only [zeroRecord, sizeof_metadata_t_eq, List.length_replicate]⟩,
    C5_extract_metadata_positions sampleFrame zeroRecord 2 (by decide) (by decide)
      (by simp [sampleFrame, sparseBuffer])
      (by simp only [zeroRecord, sizeof_metadata_t_eq, List.length_replicate])⟩

/-- C7, as stated, fails: at width 2 the two reads that make record byte 0 are at
buffer indices 3 and 7, the last bytes of lines 0 and 1. The 16-bit words that
hold them start at byte offsets 2 and 6: they are one line (4 bytes) apart, not
neighbouring words 2 bytes apart. -/
theorem C7_adjacent_word_counterexample :
    (readsOf (hsdaoh_extract_metadata sampleFrame zeroRecord 2)).map
        (fun r => (r.getD 0 0, r.getD 1 0)) = some (3, 7) ∧
    (readsOf (hsdaoh_extract_metadata sampleFrame zeroRecord 2)).map
        (fun r => decide (r.getD 1 0 = r.getD 0 0 + 2)) = some false := by
  have hr : ∀ t, t < 306 → readsInRange sampleFrame 2 t :=
    fun t ht => readsInRange_of_size sampleFrame 2 t (by decide)
      (by simp [sampleFrame, sparseBuffer]) ht
  rw [readsOf_extract sampleFrame 2 zeroRecord zeroRecord_length (by decide) (by decide) hr]
  simp only [Option.map, getD_map_range _ 612 0 (by decide),
    getD_map_range _ 612 1 (by decide)]
  decide

/-- C7, amended: for every width `w` with `1 ≤ w ≤ 3508960`, every buffer of at
least `1224*w` bytes and every record byte position `j`, the two nibbles combined
into record byte `j` are the upper nibbles of the last bytes of the two
consecutive lines `2j` and `2j+1`; the byte offsets of the two reads differ by
exactly `2*w`, the length of one line (which is 2 only for `w = 1`). -/
theorem C7_adjacent_line (data : RawBuffer) (metadata : List Nat) (w : Nat)
    (hw1 : 1 ≤ w) (hw2 : w ≤ 3508960) (hsz : 1224 * w ≤ data.size)
    (hlen : metadata.length = sizeof_metadata_t) :
    ∃ s, hsdaoh_extract_metadata data metadata w = .ok s ∧
      ∀ j, j < 306 →
        s.reads.getD (2 * j) 0 = lastByteOfLine w (2 * j) ∧
        s.reads.getD (2 * j + 1) 0 = lastByteOfLine w (2 * j + 1) ∧
        s.reads.getD (2 * j + 1) 0 = s.reads.getD (2 * j) 0 + 2 * w ∧
        s.meta.getD j 0 = upperNibble data (s.reads.getD (2 * j) 0) +
          16 * upperNibble data (s.reads.getD (2 * j + 1) 0) := by
  rw [sizeof_metadata_t_eq] at hlen
  have hr : ∀ t, t < 306 → readsInRange data w t :=
    fun t ht => readsInRange_of_size data w t hw1 hsz ht
  refine ⟨_, hsdaoh_extract_metadata_ok data w metadata hlen hr, ?_⟩
  intro j hj
  rw [stateAfter_reads data w metadata hw1 hw2, getD_map_range _ _ _ (show 2 * j < 612 by omega),
    getD_map_range _ _ _ (show 2 * j + 1 < 612 by omega), stateAfter_meta data w metadata hlen,
    getD_map_range _ _ _ hj, extractedByte_eq, idxLow_eq_of_le w j hw1 hw2 hj,
    idxHigh_eq_of_le w j hw1 hw2 hj]
  refine ⟨rfl, rfl, ?_, rfl⟩
  have h1 := lastByteOfLine_bounds w (2 * j) hw1 (by omega)
  have h2 := lastByteOfLine_bounds w (2 * j + 1) hw1 (by omega)
  have h3 : 2 * w * (2 * j + 1 + 1) = 2 * w * (2 * j + 1) + 2 * w := by ring
  omega

/-- Witness of C7 (amended): width 2 and a frame of 2448 bytes. -/
theorem C7_adjacent_line_witness :
    (1 ≤ 2 ∧ 2 ≤ 3508960 ∧ 1224 * 2 ≤ sampleFrame.size ∧
      zeroRecord.length = sizeof_metadata_t) ∧
    ∃ s, hsdaoh_extract_metadata sampleFrame zeroRecord 2 = .ok s ∧
      ∀ j, j < 306 →
        s.reads.getD (2 * j) 0 = lastByteOfLine 2 (2 * j) ∧
        s.reads.getD (2 * j + 1) 0 = lastByteOfLine 2 (2 * j + 1) ∧
        s.reads.getD (2 * j + 1) 0 = s.reads.getD (2 * j) 0 + 2 * 2 ∧
        s.meta.getD j 0 = upperNibble sampleFrame (s.reads.getD (2 * j) 0) +
          16 * upperNibble sampleFrame (s.reads.getD (2 * j + 1) 0) :=
  ⟨⟨by decide, by decide, by simp [sampleFrame, sparseBuffer],
      by simp only [zeroRecord, sizeof_metadata_t_eq, List.length_replicate]⟩,
    C7_adjacent_line sampleFrame zeroRecord 2 (by decide) (by decide)
      (by simp [sampleFrame, sparseBuffer])
      (by simp only [zeroRecord, sizeof_metadata_t_eq, List.length_replicate])⟩

/-- C9, as stated, fails for a width above 3508960: at width 3508961 the last
index expression wraps modulo `2^32` to 967, a payload byte of line 0. Two frames
of `1224 * 3508961` bytes that agree in the upper nibbles of the last bytes of
all 612 lines, and differ only in the payload byte 967, give different records. -/
theorem C9_payload_leak_counterexample :
    (1 ≤ 3508961 ∧ 1224 * 3508961 ≤ wideZeroFrame.size ∧
      1224 * 3508961 ≤ widePayloadFrame.size) ∧
    (∀ k, k < 612 →
      upperNibble wideZeroFrame (2 * 3508961 * (k + 1) - 1)
        = upperNibble widePayloadFrame (2 * 3508961 * (k + 1) - 1)) ∧
    idxHigh 3508961 610 = 967 ∧
    recordOf (hsdaoh_extract_metadata wideZeroFrame zeroRecord 3508961)
      ≠ recordOf (hsdaoh_extract_metadata widePayloadFrame zeroRecord 3508961) := by
  refine ⟨⟨by decide, by decide, by decide⟩, ?_, by decide, ?_⟩
  · intro k hk
    have hne : (2 * 3508961 * (k + 1) - 1 == 967) = false := by
      rw [beq_eq_false_iff_ne]; omega
    simp [upperNibble, wideZeroFrame, widePayloadFrame, zeroBuffer, sparseBuffer,
      List.lookup, hne]
  · have hr1 : ∀ t, t < 306 → readsInRange wideZeroFrame 3508961 t :=
      fun t ht => readsInRange_of_size _ _ t (by decide) (by decide) ht
    have hr2 : ∀ t, t < 306 → readsInRange widePayloadFrame 3508961 t :=
      fun t ht => readsInRange_of_size _ _ t (by decide) (by decide) ht
    rw [recordOf_extract _ _ zeroRecord zeroRecord_length hr1,
      recordOf_extract _ _ zeroRecord zeroRecord_length hr2]
    intro he
    exact map_range_getD_ne _ _ 306 305 (by decide) (by decide) (Option.some.inj he)

/-- C9, amended: for every width `w` with `1 ≤ w ≤ 3508960` and any two buffers of
at least `1224*w` bytes, if for every `k` in `0..611` the upper four bits of byte
`2w*(k+1) - 1` agree in the two buffers, then `hsdaoh_extract_metadata` completes
on both and leaves byte-identical records (whatever the records held before); so
the lower four bits of those bytes, every other byte of the first 612 lines and
every byte from line 612 onward have no influence on the record. -/
theorem C9_payload_independence (d1 d2 : RawBuffer) (m1 m2 : List Nat) (w : Nat)
    (hw1 : 1 ≤ w) (hw2 : w ≤ 3508960)
    (hsz1 : 1224 * w ≤ d1.size) (hsz2 : 1224 * w ≤ d2.size)
    (hlen1 : m1.length = sizeof_metadata_t) (hlen2 : m2.length = sizeof_metadata_t)
    (hnib : ∀ k, k < 612 →
      upperNibble d1 (2 * w * (k + 1) - 1) = upperNibble d2 (2 * w * (k + 1) - 1)) :
    ∃ r, recordOf (hsdaoh_extract_metadata d1 m1 w) = some r ∧
      recordOf (hsdaoh_extract_metadata d2 m2 w) = some r := by
  rw [sizeof_metadata_t_eq] at hlen1 hlen2
  have hr1 : ∀ t, t < 306 → readsInRange d1 w t :=
    fun t ht => readsInRange_of_size d1 w t hw1 hsz1 ht
  have hr2 : ∀ t, t < 306 → readsInRange d2 w t :=
    fun t ht => readsInRange_of_size d2 w t hw1 hsz2 ht
  refine ⟨_, recordOf_extract d1 w m1 hlen1 hr1, ?_⟩
  rw [recordOf_extract d2 w m2 hlen2 hr2]
  congr 1
  apply List.map_congr_left
  intro t ht
  rw [List.mem_range] at ht
  symm
  apply extractedByte_congr
  · rw [idxLow_eq_of_le w t hw1 hw2 ht]
    exact hnib (2 * t) (by omega)
  · rw [idxHigh_eq_of_le w t hw1 hw2 ht]
    exact hnib (2 * t + 1) (by omega)

/-- Witness of C9 (amended): width 2, a frame with and without its payload bytes. -/
theorem C9_payload_independence_witness :
    (1 ≤ 2 ∧ 2 ≤ 3508960 ∧ 1224 * 2 ≤ sampleFrame.size ∧
      1224 * 2 ≤ sampleFrameNoPayload.size ∧ zeroRecord.length = sizeof_metadata_t ∧
      (magicRecord 7).length = sizeof_metadata_t ∧
      ∀ k, k < 612 →
        upperNibble sampleFrame (2 * 2 * (k + 1) - 1)
          = upperNibble sampleFrameNoPayload (2 * 2 * (k + 1) - 1)) ∧
    ∃ r, recordOf (hsdaoh_extract_metadata sampleFrame zeroRecord 2) = some r ∧
      recordOf (hsdaoh_extract_metadata sampleFrameNoPayload (magicRecord 7) 2) = some r :=
  have hnib : ∀ k, k < 612 →
      upperNibble sampleFrame (2 * 2 * (k + 1) - 1)
        = upperNibble sampleFrameNoPayload (2 * 2 * (k + 1) - 1) := by
    intro k _
    have h0 : (2 * 2 * (k + 1) - 1 == 0) = false := by
      rw [beq_eq_false_iff_ne]; omega
    have h4 : (2 * 2 * (k + 1) - 1 == 4) = false := by
      rw [beq_eq_false_iff_ne]; omega
    simp [upperNibble, sampleFrame, sampleFrameNoPayload, sparseBuffer, List.lookup, h0, h4]
  ⟨⟨by decide, by decide, by simp [sampleFrame, sparseBuffer],
      by simp [sampleFrameNoPayload, sparseBuffer],
      by simp only [zeroRecord, sizeof_metadata_t_eq, List.length_replicate],
      by simp only [magicRecord, sizeof_metadata_t_eq, List.length_append,
        List.length_replicate, List.length_cons, List.length_nil], hnib⟩,
    C9_payload_independence sampleFrame sampleFrameNoPayload zeroRecord (magicRecord 7) 2
      (by decide) (by decide) (by simp [sampleFrame, sparseBuffer]) (by simp [sampleFrameNoPayload, sparseBuffer])
      (by simp only [zeroRecord, sizeof_metadata_t_eq, List.length_replicate])
      (by simp only [magicRecord, sizeof_metadata_t_eq, List.length_append, List.length_replicate,
        List.length_cons, List.length_nil]) hnib⟩

/-- C3, as stated, fails for a width above `2^28`: at width `2^28 + 1` the index
expression for the last byte of line 7 wraps modulo `2^32` to 15. In a frame whose
lines 0..7 carry the nibbles `1, B, A, C, A, 7, A, D` and whose byte 15 is zero,
the decoded magic is `0x0a7acab1`, not `0xda7acab1`. -/
theorem C3_magic_nibbles_counterexample :
    (1 ≤ 268435457 ∧ 1224 * 268435457 ≤ magicFrameWide.size) ∧
    (upperNibble magicFrameWide (lastByteOfLine 268435457 0) = 0x1 ∧
      upperNibble magicFrameWide (lastByteOfLine 268435457 1) = 0xB ∧
      upperNibble magicFrameWide (lastByteOfLine 268435457 2) = 0xA ∧
      upperNibble magicFrameWide (lastByteOfLine 268435457 3) = 0xC ∧
      upperNibble magicFrameWide (lastByteOfLine 268435457 4) = 0xA ∧
      upperNibble magicFrameWide (lastByteOfLine 268435457 5) = 0x7 ∧
      upperNibble magicFrameWide (lastByteOfLine 268435457 6) = 0xA ∧
      upperNibble magicFrameWide (lastByteOfLine 268435457 7) = 0xD) ∧
    idxHigh 268435457 6 = 15 ∧
    (recordOf (hsdaoh_extract_metadata magicFrameWide zeroRecord 268435457)).map metadata_magic
      = some 0x0a7acab1 ∧
    (0x0a7acab1 : Nat) ≠ HSDAOH_MAGIC := by
  refine ⟨⟨by decide, by decide⟩, by decide, by decide, ?_, by decide⟩
  have hr : ∀ t, t < 306 → readsInRange magicFrameWide 268435457 t :=
    fun t ht => readsInRange_of_size _ _ t (by decide) (by decide) ht
  rw [recordOf_extract _ _ zeroRecord zeroRecord_length hr, Option.map,
    metadata_magic_eq, getD_map_range _ 306 0 (by norm_num),
    getD_map_range _ 306 1 (by norm_num), getD_map_range _ 306 2 (by norm_num),
    getD_map_range _ 306 3 (by norm_num)]
  decide

/-- C3, amended: the magic is stored little-endian and least-significant nibble
first. For every width `w` with `1 ≤ w ≤ 2^28 = 268435456` and every buffer of at
least `1224*w` bytes, `hsdaoh_extract_metadata` completes, the magic of its record
is bytes 0..3 read as a little-endian 32-bit value, and it equals
`HSDAOH_MAGIC = 0xda7acab1` if and only if the upper nibbles of the last bytes of
lines 0, 1, ..., 7 are `1, B, A, C, A, 7, A, D`. -/
theorem C3_magic_nibbles (data : RawBuffer) (metadata : List Nat) (w : Nat)
    (hw1 : 1 ≤ w) (hw2 : w ≤ 268435456) (hsz : 1224 * w ≤ data.size)
    (hlen : metadata.length = sizeof_metadata_t) :
    ∃ r, recordOf (hsdaoh_extract_metadata data metadata w) = some r ∧
      metadata_magic r
        = r.getD 0 0 + 256 * r.getD 1 0 + 65536 * r.getD 2 0 + 16777216 * r.getD 3 0 ∧
      (metadata_magic r = HSDAOH_MAGIC ↔
        upperNibble data (lastByteOfLine w 0) = 0x1 ∧
        upperNibble data (lastByteOfLine w 1) = 0xB ∧
        upperNibble data (lastByteOfLine w 2) = 0xA ∧
        upperNibble data (lastByteOfLine w 3) = 0xC ∧
        upperNibble data (lastByteOfLine w 4) = 0xA ∧
        upperNibble data (lastByteOfLine w 5) = 0x7 ∧
        upperNibble data (lastByteOfLine w 6) = 0xA ∧
        upperNibble data (lastByteOfLine w 7) = 0xD) := by
  rw [sizeof_metadata_t_eq] at hlen
  have hr : ∀ t, t < 306 → readsInRange data w t :=
    fun t ht => readsInRange_of_size data w t hw1 hsz ht
  refine ⟨_, recordOf_extract data w metadata hlen hr, metadata_magic_eq _, ?_⟩
  rw [metadata_magic_eq, getD_map_range _ 306 0 (by norm_num),
    getD_map_range _ 306 1 (by norm_num), getD_map_range _ 306 2 (by norm_num),
    getD_map_range _ 306 3 (by norm_num),
    extractedByte_line data w 0 hw1 (by omega), extractedByte_line data w 1 hw1 (by omega),
    extractedByte_line data w 2 hw1 (by omega), extractedByte_line data w 3 hw1 (by omega)]
  have l0 := upperNibble_lt data (lastByteOfLine w 0)
  have l1 := upperNibble_lt data (lastByteOfLine w 1)
  have l2 := upperNibble_lt data (lastByteOfLine w 2)
  have l3 := upperNibble_lt data (lastByteOfLine w 3)
  have l4 := upperNibble_lt data (lastByteOfLine w 4)
  have l5 := upperNibble_lt data (lastByteOfLine w 5)
  have l6 := upperNibble_lt data (lastByteOfLine w 6)
  have l7 := upperNibble_lt data (lastByteOfLine w 7)
  simp only [HSDAOH_MAGIC, Nat.mul_zero, Nat.zero_add, Nat.reduceMul, Nat.reduceAdd]
  omega

/-- Witness of C3 (amended): width 2 and a frame of 2448 bytes. -/
theorem C3_magic_nibbles_witness :
    (1 ≤ 2 ∧ 2 ≤ 268435456 ∧ 1224 * 2 ≤ sampleFrame.size ∧
      zeroRecord.length = sizeof_metadata_t) ∧
    ∃ r, recordOf (hsdaoh_extract_metadata sampleFrame zeroRecord 2) = some r ∧
      metadata_magic r
        = r.getD 0 0 + 256 * r.getD 1 0 + 65536 * r.getD 2 0 + 16777216 * r.getD 3 0 ∧
      (metadata_magic r = HSDAOH_MAGIC ↔
        upperNibble sampleFrame (lastByteOfLine 2 0) = 0x1 ∧
        upperNibble sampleFrame (lastByteOfLine 2 1) = 0xB ∧
        upperNibble sampleFrame (lastByteOfLine 2 2) = 0xA ∧
        upperNibble sampleFrame (lastByteOfLine 2 3) = 0xC ∧
        upperNibble sampleFrame (lastByteOfLine 2 4) = 0xA ∧
        upperNibble sampleFrame (lastByteOfLine 2 5) = 0x7 ∧
        upperNibble sampleFrame (lastByteOfLine 2 6) = 0xA ∧
        upperNibble sampleFrame (lastByteOfLine 2 7) = 0xD) :=
  ⟨⟨by decide, by decide, by simp [sampleFrame, sparseBuffer],
      by simp only [zeroRecord, sizeof_metadata_t_eq, List.length_replicate]⟩,
    C3_magic_nibbles sampleFrame zeroRecord 2 (by decide) (by decide) (by simp [sampleFrame, sparseBuffer])
      (by simp only [zeroRecord, sizeof_metadata_t_eq, List.length_replicate])⟩

/-- C8, as stated, fails for a width above 102261126: at width 102261127 the index
expression for the last byte of line 20 wraps modulo `2^32` to 37. In a frame
whose byte `42w - 1` has bits 4 and 5 set and whose byte 37 is zero, both flag
tests of the record are zero. -/
theorem C8_flag_bits_counterexample :
    (1 ≤ 102261127 ∧ 1224 * 102261127 ≤ flagFrameWide.size) ∧
    (flagFrameWide.byte (42 * 102261127 - 1)).val.testBit 4 = true ∧
    (flagFrameWide.byte (42 * 102261127 - 1)).val.testBit 5 = true ∧
    idxLow 102261127 20 = 37 ∧
    (recordOf (hsdaoh_extract_metadata flagFrameWide zeroRecord 102261127)).map
      (fun r => (metadata_flags r &&& FLAG_STREAM_ID_PRESENT,
        metadata_flags r &&& FLAG_FORMAT_ID_PRESENT)) = some (0, 0) := by
  refine ⟨⟨by decide, by decide⟩, by decide, by decide, by decide, ?_⟩
  have hr : ∀ t, t < 306 → readsInRange flagFrameWide 102261127 t :=
    fun t ht => readsInRange_of_size _ _ t (by decide) (by decide) ht
  rw [recordOf_extract _ _ zeroRecord zeroRecord_length hr, Option.map,
    metadata_flags_eq, getD_map_range _ 306 10 (by norm_num),
    getD_map_range _ 306 11 (by norm_num), getD_map_range _ 306 12 (by norm_num),
    getD_map_range _ 306 13 (by norm_num)]
  decide

/-- C8, amended: `FLAG_STREAM_ID_PRESENT = 1` (bit 0) and
`FLAG_FORMAT_ID_PRESENT = 2` (bit 1) are tested on the little-endian 32-bit
member `flags` at record bytes 10..13. For every width `w` with
`1 ≤ w ≤ 102261126` and every buffer of at least `1224*w` bytes, in the record
left by `hsdaoh_extract_metadata`, `flags & FLAG_STREAM_ID_PRESENT` is non-zero
iff bit 4 of the last byte of line 20 (buffer index `42w - 1`) is set, and
`flags & FLAG_FORMAT_ID_PRESENT` is non-zero iff bit 5 of that byte is set; two
buffers that agree in that bit give the same test, whatever else differs. -/
theorem C8_flag_bits (d1 d2 : RawBuffer) (m1 m2 : List Nat) (w : Nat)
    (hw1 : 1 ≤ w) (hw2 : w ≤ 102261126)
    (hsz1 : 1224 * w ≤ d1.size) (hsz2 : 1224 * w ≤ d2.size)
    (hlen1 : m1.length = sizeof_metadata_t) (hlen2 : m2.length = sizeof_metadata_t) :
    FLAG_STREAM_ID_PRESENT = 1 ∧ FLAG_FORMAT_ID_PRESENT = 2 ∧
    offsetOf metadata_t "flags" = some 10 ∧ sizeOfField metadata_t "flags" = some 4 ∧
    lastByteOfLine w 20 = 42 * w - 1 ∧
    ∃ r1 r2, recordOf (hsdaoh_extract_metadata d1 m1 w) = some r1 ∧
      recordOf (hsdaoh_extract_metadata d2 m2 w) = some r2 ∧
      metadata_flags r1
        = r1.getD 10 0 + 256 * r1.getD 11 0 + 65536 * r1.getD 12 0 + 16777216 * r1.getD 13 0 ∧
      (metadata_flags r1 &&& FLAG_STREAM_ID_PRESENT ≠ 0 ↔
        (d1.byte (42 * w - 1)).val.testBit 4 = true) ∧
      (metadata_flags r1 &&& FLAG_FORMAT_ID_PRESENT ≠ 0 ↔
        (d1.byte (42 * w - 1)).val.testBit 5 = true) ∧
      ((d1.byte (42 * w - 1)).val.testBit 4 = (d2.byte (42 * w - 1)).val.testBit 4 →
        (metadata_flags r1 &&& FLAG_STREAM_ID_PRESENT ≠ 0 ↔
          metadata_flags r2 &&& FLAG_STREAM_ID_PRESENT ≠ 0)) ∧
      ((d1.byte (42 * w - 1)).val.testBit 5 = (d2.byte (42 * w - 1)).val.testBit 5 →
        (metadata_flags r1 &&& FLAG_FORMAT_ID_PRESENT ≠ 0 ↔
          metadata_flags r2 &&& FLAG_FORMAT_ID_PRESENT ≠ 0)) := by
  rw [sizeof_metadata_t_eq] at hlen1 hlen2
  obtain ⟨r1, e1, a1, b1⟩ := flags_tests d1 m1 w hw1 hw2 hsz1 hlen1
  obtain ⟨r2, e2, a2, b2⟩ := flags_tests d2 m2 w hw1 hw2 hsz2 hlen2
  refine ⟨by decide, by decide, by decide, by decide, ?_, r1, r2, e1, e2,
    metadata_flags_eq r1, a1, b1, ?_, ?_⟩
  · rw [lastByteOfLine]; omega
  · intro h; rw [a1, a2, h]
  · intro h; rw [b1, b2, h]

/-- Witness of C8 (amended): width 2, a frame with and without its payload bytes. -/
theorem C8_flag_bits_witness :
    (1 ≤ 2 ∧ 2 ≤ 102261126 ∧ 1224 * 2 ≤ sampleFrame.size ∧
      1224 * 2 ≤ sampleFrameNoPayload.size ∧ zeroRecord.length = sizeof_metadata_t ∧
      (magicRecord 7).length = sizeof_metadata_t) ∧
    (FLAG_STREAM_ID_PRESENT = 1 ∧ FLAG_FORMAT_ID_PRESENT = 2 ∧
    offsetOf metadata_t "flags" = some 10 ∧ sizeOfField metadata_t "flags" = some 4 ∧
    lastByteOfLine 2 20 = 42 * 2 - 1 ∧
    ∃ r1 r2, recordOf (hsdaoh_extract_metadata sampleFrame zeroRecord 2) = some r1 ∧
      recordOf (hsdaoh_extract_metadata sampleFrameNoPayload (magicRecord 7) 2) = some r2 ∧
      metadata_flags r1
        = r1.getD 10 0 + 256 * r1.getD 11 0 + 65536 * r1.getD 12 0 + 16777216 * r1.getD 13 0 ∧
      (metadata_flags r1 &&& FLAG_STREAM_ID_PRESENT ≠ 0 ↔
        (sampleFrame.byte (42 * 2 - 1)).val.testBit 4 = true) ∧
      (metadata_flags r1 &&& FLAG_FORMAT_ID_PRESENT ≠ 0 ↔
        (sampleFrame.byte (42 * 2 - 1)).val.testBit 5 = true) ∧
      ((sampleFrame.byte (42 * 2 - 1)).val.testBit 4
          = (sampleFrameNoPayload.byte (42 * 2 - 1)).val.testBit 4 →
        (metadata_flags r1 &&& FLAG_STREAM_ID_PRESENT ≠ 0 ↔
          metadata_flags r2 &&& FLAG_STREAM_ID_PRESENT ≠ 0)) ∧
      ((sampleFrame.byte (42 * 2 - 1)).val.testBit 5
          = (sampleFrameNoPayload.byte (42 * 2 - 1)).val.testBit 5 →
        (metadata_flags r1 &&& FLAG_FORMAT_ID_PRESENT ≠ 0 ↔
          metadata_flags r2 &&& FLAG_FORMAT_ID_PRESENT ≠ 0))) :=
  ⟨⟨by decide, by decide, by simp [sampleFrame, sparseBuffer],
      by simp [sampleFrameNoPayload, sparseBuffer],
      by simp only [zeroRecord, sizeof_metadata_t_eq, List.length_replicate],
      by simp only [magicRecord, sizeof_metadata_t_eq, List.length_append,
        List.length_replicate, List.length_cons, List.length_nil]⟩,
    C8_flag_bits sampleFrame sampleFrameNoPayload zeroRecord (magicRecord 7) 2
      (by decide) (by decide) (by simp [sampleFrame, sparseBuffer]) (by simp [sampleFrameNoPayload, sparseBuffer])
      (by simp only [zeroRecord, sizeof_metadata_t_eq, List.length_replicate])
      (by simp only [magicRecord, sizeof_metadata_t_eq, List.length_append, List.length_replicate,
        List.length_cons, List.length_nil])⟩

/-- C2, as stated, fails for a width above 3508960: at width 3508961 the record
with the magic in bytes 0..3 and `0xf0` in byte 305, encoded into a zero frame of
`1224 * 3508961` bytes, is not returned by `hsdaoh_extract_metadata`: the last
index expression wraps modulo `2^32` to 967, where the frame holds no metadata. -/
theorem C2_round_trip_counterexample :
    (1 ≤ 3508961 ∧ 1224 * 3508961 ≤ wideZeroFrame.size ∧
      (magicRecord 0xf0).length = sizeof_metadata_t ∧
      (∀ x, x ∈ magicRecord 0xf0 → x < 256) ∧
      metadata_magic (magicRecord 0xf0) = HSDAOH_MAGIC) ∧
    idxHigh 3508961 610 = 967 ∧
    recordOf (hsdaoh_extract_metadata
        (hsdaoh_encode_metadata wideZeroFrame 3508961 (magicRecord 0xf0)) zeroRecord 3508961)
      ≠ some (magicRecord 0xf0) := by
  refine ⟨⟨by decide, by decide, ?_, ?_, by decide⟩, by decide, ?_⟩
  · simp only [magicRecord, sizeof_metadata_t_eq, List.length_append, List.length_replicate,
      List.length_cons, List.length_nil]
  · intro x hx
    simp only [magicRecord, List.mem_append, List.mem_cons, List.mem_replicate,
      List.mem_singleton, List.not_mem_nil, or_false] at hx
    omega
  · have hr : ∀ t, t < 306 → readsInRange
        (hsdaoh_encode_metadata wideZeroFrame 3508961 (magicRecord 0xf0)) 3508961 t :=
      fun t ht => readsInRange_of_size _ _ t (by decide) (by decide) ht
    rw [recordOf_extract _ _ zeroRecord zeroRecord_length hr]
    intro he
    refine map_range_ne_of_getD _ _ 306 305 (by decide) ?_ (Option.some.inj he)
    set_option maxRecDepth 100000 in
    decide

/-- C2, amended: round trip of the metadata codec for every width `w` with
`1 ≤ w ≤ 3508960`. Encoding a 306-byte record `r` (in particular one whose magic
is `0xda7acab1`) into a frame of at least `1224*w` bytes by the inverse nibble
interleaving and then running `hsdaoh_extract_metadata` returns exactly `r`; and
for every buffer `d` of at least `1224*w` bytes, re-encoding the record extracted
from `d` reproduces the 612 upper nibbles that `d` carries at the last bytes of
its first 612 lines. -/
theorem C2_round_trip (base d : RawBuffer) (m0 r : List Nat) (w : Nat)
    (hw1 : 1 ≤ w) (hw2 : w ≤ 3508960)
    (hszb : 1224 * w ≤ base.size) (hszd : 1224 * w ≤ d.size)
    (hm0 : m0.length = sizeof_metadata_t)
    (hlen : r.length = sizeof_metadata_t) (hbytes : ∀ x, x ∈ r → x < 256) :
    recordOf (hsdaoh_extract_metadata (hsdaoh_encode_metadata base w r) m0 w) = some r ∧
    ∃ r2, recordOf (hsdaoh_extract_metadata d m0 w) = some r2 ∧
      ∀ k, k < 612 →
        upperNibble (hsdaoh_encode_metadata base w r2) (lastByteOfLine w k)
          = upperNibble d (lastByteOfLine w k) := by
  rw [sizeof_metadata_t_eq] at hm0 hlen
  constructor
  · have hr : ∀ t, t < 306 → readsInRange (hsdaoh_encode_metadata base w r) w t :=
      fun t ht => readsInRange_of_size _ w t hw1 hszb ht
    rw [recordOf_extract _ w m0 hm0 hr]
    have hmap : (List.range 306).map (extractedByte (hsdaoh_encode_metadata base w r) w)
        = (List.range 306).map (fun j => r.getD j 0) := by
      apply List.map_congr_left
      intro t ht
      rw [List.mem_range] at ht
      rw [extractedByte_eq, idxLow_eq_of_le w t hw1 hw2 ht, idxHigh_eq_of_le w t hw1 hw2 ht,
        encode_upperNibble base w r (2 * t) hw1 (by omega),
        encode_upperNibble base w r (2 * t + 1) hw1 (by omega)]
      unfold recordNibble
      have hx : r.getD t 0 < 256 := by
        rw [List.getD_eq_getElem _ _ (by omega : t < r.length)]
        exact hbytes _ (List.getElem_mem _)
      rw [if_pos (by omega), if_neg (by omega), show 2 * t / 2 = t by omega,
        show (2 * t + 1) / 2 = t by omega]
      omega
    rw [hmap, map_getD_range r 306 hlen]
  · have hr : ∀ t, t < 306 → readsInRange d w t :=
      fun t ht => readsInRange_of_size d w t hw1 hszd ht
    refine ⟨_, recordOf_extract d w m0 hm0 hr, ?_⟩
    intro k hk
    rw [encode_upperNibble base w _ k hw1 (by simp; omega)]
    unfold recordNibble
    rw [getD_map_range _ 306 (k / 2) (by omega), extractedByte_eq,
      idxLow_eq_of_le w (k / 2) hw1 hw2 (by omega), idxHigh_eq_of_le w (k / 2) hw1 hw2 (by omega)]
    have l1 := upperNibble_lt d (lastByteOfLine w (2 * (k / 2)))
    have l2 := upperNibble_lt d (lastByteOfLine w (2 * (k / 2) + 1))
    rcases Nat.mod_two_eq_zero_or_one k with h | h
    · have hk2 : lastByteOfLine w k = lastByteOfLine w (2 * (k / 2)) :=
        congrArg (lastByteOfLine w) (by omega)
      rw [if_pos h, hk2]
      omega
    · have hk2 : lastByteOfLine w k = lastByteOfLine w (2 * (k / 2) + 1) :=
        congrArg (lastByteOfLine w) (by omega)
      rw [if_neg (by omega), hk2]
      omega

/-- Witness of C2 (amended): width 2, a record with the magic, a frame of 2448 bytes. -/
theorem C2_round_trip_witness :
    (1 ≤ 2 ∧ 2 ≤ 3508960 ∧ 1224 * 2 ≤ sampleFrameNoPayload.size ∧
      1224 * 2 ≤ sampleFrame.size ∧ zeroRecord.length = sizeof_metadata_t ∧
      (magicRecord 0xf0).length = sizeof_metadata_t ∧
      (∀ x, x ∈ magicRecord 0xf0 → x < 256) ∧
      metadata_magic (magicRecord 0xf0) = HSDAOH_MAGIC) ∧
    recordOf (hsdaoh_extract_metadata
        (hsdaoh_encode_metadata sampleFrameNoPayload 2 (magicRecord 0xf0)) zeroRecord 2)
      = some (magicRecord 0xf0) ∧
    ∃ r2, recordOf (hsdaoh_extract_metadata sampleFrame zeroRecord 2) = some r2 ∧
      ∀ k, k < 612 →
        upperNibble (hsdaoh_encode_metadata sampleFrameNoPayload 2 r2) (lastByteOfLine 2 k)
          = upperNibble sampleFrame (lastByteOfLine 2 k) :=
  have hbytes : ∀ x, x ∈ magicRecord 0xf0 → x < 256 := by
    intro x hx
    simp only [magicRecord, List.mem_append, List.mem_cons, List.mem_replicate,
      List.mem_singleton, List.not_mem_nil, or_false] at hx
    omega
  ⟨⟨by decide, by decide, by simp [sampleFrameNoPayload, sparseBuffer],
      by simp [sampleFrame, sparseBuffer],
      by simp only [zeroRecord, sizeof_metadata_t_eq, List.length_replicate],
      by simp only [magicRecord, sizeof_metadata_t_eq, List.length_append,
        List.length_replicate, List.length_cons, List.length_nil], hbytes, by decide⟩,
    C2_round_trip sampleFrameNoPayload sampleFrame zeroRecord (magicRecord 0xf0) 2
      (by decide) (by decide) (by simp [sampleFrameNoPayload, sparseBuffer]) (by simp [sampleFrame, sparseBuffer])
      (by simp only [zeroRecord, sizeof_metadata_t_eq, List.length_replicate])
      (by simp only [magicRecord, sizeof_metadata_t_eq, List.length_append, List.length_replicate,
        List.length_cons, List.length_nil]) hbytes⟩

/-- C6: the packed, 1-byte-aligned metadata record is `4+2+1+1+2+4+32+2+2+8*32 = 306`
bytes without padding, with `magic` at byte offset 0, `framecounter` at 4,
`reserved1` at 6, `crc_config` at 7, `version` at 8, `flags` at 10, the 32 reserved
bytes `reserved2` at 14, `stream0_format` at 46, `max_streamid` at 48 and entry `k`
of `stream_info` (`0 ≤ k < 8`) at `50 + 32k`; an entry is `8+4+4+16 = 32` bytes with
`data_cnt` at 0, `srate` at 8, `reserved1` at 12 and `reserved2` at 16. Every byte
of either record lies in exactly one member (no overlap, full cover) and no member
reaches past the end. -/
theorem C6_metadata_layout :
    packedSize metadata_t = 306 ∧ 4 + 2 + 1 + 1 + 2 + 4 + 32 + 2 + 2 + 8 * 32 = 306 ∧
    sizeof_metadata_t = 306 ∧
    (packedLayout 0 metadata_t).map (fun p => (p.1.name, p.2, p.1.size))
      = [("magic", 0, 4), ("framecounter", 4, 2), ("reserved1", 6, 1), ("crc_config", 7, 1),
         ("version", 8, 2), ("flags", 10, 4), ("reserved2", 14, 32), ("stream0_format", 46, 2),
         ("max_streamid", 48, 2), ("stream_info", 50, 256)] ∧
    offsetOf metadata_t "magic" = some 0 ∧
    offsetOf metadata_t "framecounter" = some 4 ∧
    offsetOf metadata_t "reserved1" = some 6 ∧
    offsetOf metadata_t "crc_config" = some 7 ∧
    offsetOf metadata_t "version" = some 8 ∧
    offsetOf metadata_t "flags" = some 10 ∧
    offsetOf metadata_t "reserved2" = some 14 ∧
    sizeOfField metadata_t "reserved2" = some 32 ∧
    offsetOf metadata_t "stream0_format" = some 46 ∧
    offsetOf metadata_t "max_streamid" = some 48 ∧
    (∀ k : Fin 8, offsetOfElem metadata_t "stream_info" k.val = some (50 + 32 * k.val)) ∧
    packedSize stream_info_t = 32 ∧ 8 + 4 + 4 + 16 = 32 ∧
    (packedLayout 0 stream_info_t).map (fun p => (p.1.name, p.2, p.1.size))
      = [("data_cnt", 0, 8), ("srate", 8, 4), ("reserved1", 12, 4), ("reserved2", 16, 16)] ∧
    (∀ b : Fin 306, fieldsCovering metadata_t b.val = 1) ∧
    fieldsCovering metadata_t 306 = 0 ∧
    (∀ b : Fin 32, fieldsCovering stream_info_t b.val = 1) ∧
    fieldsCovering stream_info_t 32 = 0 := by
  set_option maxRecDepth 100000 in
  decide


/-- C4: the metadata codec checks the magic field of the decoded record first. For
every width `w ≥ 1` and every buffer of at least `1224*w` bytes, when the magic of
the record decoded by `hsdaoh_extract_metadata` differs from `0xda7acab1` the codec
returns the synchronization failure `IncorrectFrameFormat`, whose code is `-9`,
instead of a record, and when it equals `0xda7acab1` the codec returns that record.
The failure is a returned value: the codec never ends in a fault. For a width up
to `2^28` (no wrap-around on lines 0..7) the codec returns a record exactly when
the upper nibbles of the last bytes of lines 0..7 are `1, B, A, C, A, 7, A, D`, and
the failure exactly when they are not. -/
theorem C4_codec_magic_check (data : RawBuffer) (metadata : List Nat) (w : Nat)
    (hw1 : 1 ≤ w) (hsz : 1224 * w ≤ data.size) (hlen : metadata.length = sizeof_metadata_t) :
    hsdaoh_messages.code .HSDAOH_ERROR_INCORRECT_FRAME_FORMAT = -9 ∧
    (∃ r, recordOf (hsdaoh_extract_metadata data metadata w) = some r ∧ r.length = 306 ∧
      (metadata_magic r ≠ HSDAOH_MAGIC →
        metadata_codec data metadata w = .ok (.failure .HSDAOH_ERROR_INCORRECT_FRAME_FORMAT)) ∧
      (metadata_magic r = HSDAOH_MAGIC →
        metadata_codec data metadata w = .ok (.record r))) ∧
    (∀ e, metadata_codec data metadata w ≠ .error e) ∧
    (w ≤ 268435456 →
      ((∃ r, metadata_codec data metadata w = .ok (.record r)) ↔
        upperNibble data (lastByteOfLine w 0) = 0x1 ∧
        upperNibble data (lastByteOfLine w 1) = 0xB ∧
        upperNibble data (lastByteOfLine w 2) = 0xA ∧
        upperNibble data (lastByteOfLine w 3) = 0xC ∧
        upperNibble data (lastByteOfLine w 4) = 0xA ∧
        upperNibble data (lastByteOfLine w 5) = 0x7 ∧
        upperNibble data (lastByteOfLine w 6) = 0xA ∧
        upperNibble data (lastByteOfLine w 7) = 0xD) ∧
      (metadata_codec data metadata w = .ok (.failure .HSDAOH_ERROR_INCORRECT_FRAME_FORMAT) ↔
        ¬ (upperNibble data (lastByteOfLine w 0) = 0x1 ∧
          upperNibble data (lastByteOfLine w 1) = 0xB ∧
          upperNibble data (lastByteOfLine w 2) = 0xA ∧
          upperNibble data (lastByteOfLine w 3) = 0xC ∧
          upperNibble data (lastByteOfLine w 4) = 0xA ∧
          upperNibble data (lastByteOfLine w 5) = 0x7 ∧
          upperNibble data (lastByteOfLine w 6) = 0xA ∧
          upperNibble data (lastByteOfLine w 7) = 0xD))) := by
  rw [sizeof_metadata_t_eq] at hlen
  have hr : ∀ t, t < 306 → readsInRange data w t :=
    fun t ht => readsInRange_of_size data w t hw1 hsz ht
  have hc := metadata_codec_eq data w metadata hlen hr
  refine ⟨rfl, ⟨_, recordOf_extract data w metadata hlen hr, ?_, ?_, ?_⟩, ?_, ?_⟩
  · rw [List.length_map, List.length_range]
  · intro h; rw [hc, if_pos h]
  · intro h; rw [hc, if_neg (not_not.2 h)]
  · intro e he
    rw [hc] at he
    split at he <;> cases he
  · intro hw2
    rw [← extract_magic_iff data w hw1 hw2, hc]
    by_cases h : metadata_magic ((List.range 306).map (extractedByte data w)) = HSDAOH_MAGIC
    · rw [if_neg (not_not.2 h)]
      refine ⟨⟨fun _ => h, fun _ => ⟨_, rfl⟩⟩, ⟨fun he => ?_, fun hn => absurd h hn⟩⟩
      cases he
    · rw [if_pos h]
      refine ⟨⟨fun ⟨r, he⟩ => ?_, fun hm => absurd hm h⟩, ⟨fun _ => h, fun _ => rfl⟩⟩
      cases he

/-- Witness of C4: a frame of 2448 bytes at width 2 that carries the magic (the
codec returns a record) and a frame of 1224 zero bytes at width 1 (the codec
returns `HSDAOH_ERROR_INCORRECT_FRAME_FORMAT`). -/
theorem C4_codec_magic_check_witness :
    (1 ≤ 2 ∧ 1224 * 2 ≤ sampleFrame.size ∧ zeroRecord.length = sizeof_metadata_t ∧
      2 ≤ 268435456) ∧
    (hsdaoh_messages.code .HSDAOH_ERROR_INCORRECT_FRAME_FORMAT = -9 ∧
    (∃ r, recordOf (hsdaoh_extract_metadata sampleFrame zeroRecord 2) = some r ∧ r.length = 306 ∧
      (metadata_magic r ≠ HSDAOH_MAGIC →
        metadata_codec sampleFrame zeroRecord 2
          = .ok (.failure .HSDAOH_ERROR_INCORRECT_FRAME_FORMAT)) ∧
      (metadata_magic r = HSDAOH_MAGIC →
        metadata_codec sampleFrame zeroRecord 2 = .ok (.record r))) ∧
    (∀ e, metadata_codec sampleFrame zeroRecord 2 ≠ .error e) ∧
    (((∃ r, metadata_codec sampleFrame zeroRecord 2 = .ok (.record r)) ↔
        upperNibble sampleFrame (lastByteOfLine 2 0) = 0x1 ∧
        upperNibble sampleFrame (lastByteOfLine 2 1) = 0xB ∧
        upperNibble sampleFrame (lastByteOfLine 2 2) = 0xA ∧
        upperNibble sampleFrame (lastByteOfLine 2 3) = 0xC ∧
        upperNibble sampleFrame (lastByteOfLine 2 4) = 0xA ∧
        upperNibble sampleFrame (lastByteOfLine 2 5) = 0x7 ∧
        upperNibble sampleFrame (lastByteOfLine 2 6) = 0xA ∧
        upperNibble sampleFrame (lastByteOfLine 2 7) = 0xD) ∧
      (metadata_codec sampleFrame zeroRecord 2
          = .ok (.failure .HSDAOH_ERROR_INCORRECT_FRAME_FORMAT) ↔
        ¬ (upperNibble sampleFrame (lastByteOfLine 2 0) = 0x1 ∧
          upperNibble sampleFrame (lastByteOfLine 2 1) = 0xB ∧
          upperNibble sampleFrame (lastByteOfLine 2 2) = 0xA ∧
          upperNibble sampleFrame (lastByteOfLine 2 3) = 0xC ∧
          upperNibble sampleFrame (lastByteOfLine 2 4) = 0xA ∧
          upperNibble sampleFrame (lastByteOfLine 2 5) = 0x7 ∧
          upperNibble sampleFrame (lastByteOfLine 2 6) = 0xA ∧
          upperNibble sampleFrame (lastByteOfLine 2 7) = 0xD)))) ∧
    (∃ r, metadata_codec sampleFrame zeroRecord 2 = .ok (.record r)) ∧
    (1 ≤ 1 ∧ 1224 * 1 ≤ (zeroBuffer 1224).size) ∧
    metadata_codec (zeroBuffer 1224) zeroRecord 1
      = .ok (.failure .HSDAOH_ERROR_INCORRECT_FRAME_FORMAT) := by
  have hl : zeroRecord.length = sizeof_metadata_t := by
    simp only [zeroRecord, sizeof_metadata_t_eq, List.length_replicate]
  have hs : 1224 * 2 ≤ sampleFrame.size := by simp [sampleFrame, sparseBuffer]
  have h2 := C4_codec_magic_check sampleFrame zeroRecord 2 (by decide) hs hl
  have h1 := C4_codec_magic_check (zeroBuffer 1224) zeroRecord 1 (by decide) (by decide) hl
  refine ⟨⟨by decide, hs, hl, by decide⟩,
    ⟨h2.1, h2.2.1, h2.2.2.1, h2.2.2.2 (by decide)⟩, ?_, ⟨by decide, by decide⟩, ?_⟩
  · exact ((h2.2.2.2 (by decide)).1).2 (by decide)
  · obtain ⟨r, hr, _, hfail, _⟩ := h1.2.1
    rw [recordOf_zeroFrame] at hr
    cases hr
    exact hfail (by decide)

end Hsdaoh
